import Mathlib

/-!
Shallow embedding of the portox PnL core (backend/app/services/pnl_service.py,
analytics_service.py, tax_service.py and backend/app/utils/calculations.py).

Modelling conventions:
* Python `float` money values are modelled as `ℚ` (the source only ever adds,
  subtracts, multiplies and divides trade prices and fees, and every division
  is guarded against a zero denominator, so the computations are exact).
* Python `int` quantities are modelled as `ℤ`.
* Python `datetime` values are modelled as an integer timestamp in seconds
  (`ℤ`); derived calendar quantities (`.date()`, `.year`, `.hour`,
  `.weekday()`, `timedelta.days`) are defined below from that timestamp with
  the proleptic Gregorian calendar, matching Python's naive-datetime
  arithmetic.
* Python `dict`s are modelled as insertion-ordered association lists with
  unique keys (`lookupA` / `upsertA` / `setdefaultA` mirror `d[k]`,
  `d[k] = v` / `update`, and `setdefault`).
-/

namespace Portox

/-- Models `Side = Literal["BUY", "SELL"]` from pnl_service.py. -/
inductive Side where
  | BUY
  | SELL
deriving DecidableEq, Repr

/-- Models `Literal["LONG", "SHORT"]`, the `side_closed` field of a realized match. -/
inductive SideClosed where
  | LONG
  | SHORT
deriving DecidableEq, Repr

/-- Models `TradeRow` dataclass from pnl_service.py. -/
structure TradeRow where
  id : String
  user_id : String
  symbol : String
  side : Side
  quantity : ℤ
  price : ℚ
  trade_time : ℤ
  fees : ℚ
deriving DecidableEq, Repr

/-- Models `Lot` dataclass from pnl_service.py. -/
structure Lot where
  qty : ℤ
  trade_id : String
  price : ℚ
  fee_per_share : ℚ
  time : ℤ
deriving DecidableEq, Repr

/-- Models `RealizedMatch` dataclass from pnl_service.py. -/
structure RealizedMatch where
  symbol : String
  qty : ℤ
  entry_trade_id : String
  exit_trade_id : String
  entry_price : ℚ
  exit_price : ℚ
  entry_time : ℤ
  exit_time : ℤ
  side_closed : SideClosed
  pnl : ℚ
deriving DecidableEq, Repr

/-- Association-list lookup, modelling Python `d.get(k)` / `k in d`. -/
def lookupA {α : Type} : List (String × α) → String → Option α
  | [], _ => none
  | (k', v) :: rest, k => if k' = k then some v else lookupA rest k

/-- Models `d.get(k, dflt)`. -/
def getDA {α : Type} (m : List (String × α)) (k : String) (dflt : α) : α :=
  (lookupA m k).getD dflt

/-- Models `d[k] = v`: replace the value at an existing key in place, else append
(Python dicts preserve insertion order). -/
def upsertA {α : Type} : List (String × α) → String → α → List (String × α)
  | [], k, v => [(k, v)]
  | (k', v') :: rest, k, v =>
      if k' = k then (k', v) :: rest else (k', v') :: upsertA rest k v

/-- Models `d.setdefault(k, v)` (the resulting dict). -/
def setdefaultA {α : Type} (m : List (String × α)) (k : String) (v : α) :
    List (String × α) :=
  if (lookupA m k).isSome then m else m ++ [(k, v)]

/-- Models `t.symbol.upper().strip()`: uppercase then strip surrounding whitespace.
Modelled character-wise (`str.upper` restricted to its ASCII action, which is
all the engine's symbols use; `str.strip` removes leading and trailing
whitespace). -/
def normSym (s : String) : String :=
  ⟨((((s.data.map Char.toUpper).dropWhile Char.isWhitespace).reverse.dropWhile
      Char.isWhitespace).reverse)⟩

/-- Models `_fee_per_share` from pnl_service.py. -/
def _fee_per_share (qty : ℤ) (fees : ℚ) : ℚ :=
  if qty ≤ 0 then 0 else fees / (qty : ℚ)

/-- Per-symbol position `{"long": [...], "short": [...]}`. -/
structure Position where
  long : List Lot
  short : List Lot
deriving DecidableEq, Repr

/-- The accumulator threaded through `compute_fifo`'s main loop:
`realized`, `positions`, `mark`. -/
structure EngineState where
  realized : List RealizedMatch
  positions : List (String × Position)
  mark : List (String × ℚ)
deriving DecidableEq, Repr

/-- The `while remaining > 0 and shorts:` loop in the BUY branch of
`compute_fifo`.  Arguments fix the incoming trade's data; the recursion is on
the short-lot queue.  Returns the emitted matches (in order), the leftover
`remaining`, and the queue after draining.  In the branch where the head lot
survives (`lot.qty - m ≠ 0`), `m = min remaining lot.qty` forces
`remaining - m = 0`, so the Python loop exits there exactly as we do. -/
def drain_shorts (sym tid : String) (price : ℚ) (ttime : ℤ) (buy_fee_ps : ℚ) :
    ℤ → List Lot → List RealizedMatch × ℤ × List Lot
  | remaining, [] => ([], remaining, [])
  | remaining, lot :: rest =>
      if remaining ≤ 0 then ([], remaining, lot :: rest)
      else
        let m := min remaining lot.qty
        let rm : RealizedMatch :=
          { symbol := sym
            qty := m
            entry_trade_id := lot.trade_id
            exit_trade_id := tid
            entry_price := lot.price
            exit_price := price
            entry_time := lot.time
            exit_time := ttime
            side_closed := SideClosed.SHORT
            -- Short pnl: entry (sell) - exit (buy)
            pnl := (lot.price - price) * (m : ℚ) -
              (lot.fee_per_share + buy_fee_ps) * (m : ℚ) }
        if lot.qty - m = 0 then
          let r := drain_shorts sym tid price ttime buy_fee_ps (remaining - m) rest
          (rm :: r.1, r.2.1, r.2.2)
        else
          ([rm], remaining - m, { lot with qty := lot.qty - m } :: rest)

/-- The `while remaining > 0 and longs:` loop in the SELL branch of
`compute_fifo` (symmetric to `drain_shorts`). -/
def drain_longs (sym tid : String) (price : ℚ) (ttime : ℤ) (sell_fee_ps : ℚ) :
    ℤ → List Lot → List RealizedMatch × ℤ × List Lot
  | remaining, [] => ([], remaining, [])
  | remaining, lot :: rest =>
      if remaining ≤ 0 then ([], remaining, lot :: rest)
      else
        let m := min remaining lot.qty
        let rm : RealizedMatch :=
          { symbol := sym
            qty := m
            entry_trade_id := lot.trade_id
            exit_trade_id := tid
            entry_price := lot.price
            exit_price := price
            entry_time := lot.time
            exit_time := ttime
            side_closed := SideClosed.LONG
            pnl := (price - lot.price) * (m : ℚ) -
              (lot.fee_per_share + sell_fee_ps) * (m : ℚ) }
        if lot.qty - m = 0 then
          let r := drain_longs sym tid price ttime sell_fee_ps (remaining - m) rest
          (rm :: r.1, r.2.1, r.2.2)
        else
          ([rm], remaining - m, { lot with qty := lot.qty - m } :: rest)

/-- One iteration of the `for t in trades_sorted:` loop of `compute_fifo`. -/
def processTrade (st : EngineState) (t : TradeRow) : EngineState :=
  let sym := normSym t.symbol
  let positions1 := setdefaultA st.positions sym { long := [], short := [] }
  let mark1 := upsertA st.mark sym t.price
  let pos := getDA positions1 sym { long := [], short := [] }
  match t.side with
  | Side.BUY =>
      let buy_fee_ps := _fee_per_share t.quantity t.fees
      let r := drain_shorts sym t.id t.price t.trade_time buy_fee_ps t.quantity pos.short
      let newLong :=
        if 0 < r.2.1 then
          pos.long ++ [{ qty := r.2.1, trade_id := t.id, price := t.price,
                         fee_per_share := buy_fee_ps, time := t.trade_time }]
        else pos.long
      { realized := st.realized ++ r.1
        positions := upsertA positions1 sym { long := newLong, short := r.2.2 }
        mark := mark1 }
  | Side.SELL =>
      let sell_fee_ps := _fee_per_share t.quantity t.fees
      let r := drain_longs sym t.id t.price t.trade_time sell_fee_ps t.quantity pos.long
      let newShort :=
        if 0 < r.2.1 then
          pos.short ++ [{ qty := r.2.1, trade_id := t.id, price := t.price,
                          fee_per_share := sell_fee_ps, time := t.trade_time }]
        else pos.short
      { realized := st.realized ++ r.1
        positions := upsertA positions1 sym { long := r.2.2, short := newShort }
        mark := mark1 }

/-- Models `sorted(trades, key=lambda t: t.trade_time)`: a stable sort on the trade
time (insertion sort is stable, so it computes the same list as Python's
stable sort). -/
def sortTrades (trades : List TradeRow) : List TradeRow :=
  trades.insertionSort (fun a b => a.trade_time ≤ b.trade_time)

/-- Models `compute_fifo` from pnl_service.py. -/
def compute_fifo (trades : List TradeRow) :
    List RealizedMatch × List (String × Position) × List (String × ℚ) :=
  let st := (sortTrades trades).foldl processTrade
    { realized := [], positions := [], mark := [] }
  (st.realized, st.positions, st.mark)

/-- Models `compute_unrealized` from pnl_service.py. -/
def compute_unrealized (positions : List (String × Position))
    (mark : List (String × ℚ)) : List (String × ℚ) :=
  positions.map (fun p =>
    let px := getDA mark p.1 0
    let totalLong := (p.2.long.map (fun lot =>
      -- Entry fees included in cost basis (fee_per_share)
      px * (lot.qty : ℚ) - (lot.price + lot.fee_per_share) * (lot.qty : ℚ))).sum
    let totalShort := (p.2.short.map (fun lot =>
      -- Entry fees reduce proceeds: proceeds = (price - fee_ps) * qty
      (lot.price - lot.fee_per_share) * (lot.qty : ℚ) - px * (lot.qty : ℚ))).sum
    (p.1, totalLong + totalShort))

/-! ## utils/calculations.py -/

/-- Models `EquityPoint` dataclass from calculations.py. -/
structure EquityPoint where
  t : ℤ
  equity : ℚ
deriving DecidableEq, Repr

/-- Models `max_drawdown` from calculations.py: running peak minus current equity,
maximized over the series (`peak` starts as `None` and becomes the first
point's equity). -/
def max_drawdown (points : List EquityPoint) : ℚ :=
  (points.foldl
    (fun (acc : Option ℚ × ℚ) p =>
      let peak := match acc.1 with
        | none => p.equity
        | some pk => max pk p.equity
      (some peak, max acc.2 (peak - p.equity)))
    (none, 0)).2

/-- Models `bucket_hour` from calculations.py: `dt.hour` of a naive datetime, i.e.
the hour of day of the timestamp. -/
def bucket_hour (dt : ℤ) : ℤ :=
  (dt.emod 86400).fdiv 3600

/-- Models `bucket_weekday` from calculations.py: `dt.weekday()`, Monday=0 …
Sunday=6 (1970-01-01, timestamp 0, was a Thursday = 3). -/
def bucket_weekday (dt : ℤ) : ℤ :=
  (dt.fdiv 86400 + 3).emod 7

open Classical in
/-- Models `sharpe_ratio` from calculations.py: `(mean - rf) / sample_stddev` with
Bessel-corrected variance; `None` for fewer than two points or zero standard
deviation.  The square root lands in `ℝ`. -/
noncomputable def sharpe_ratio' (returns : List ℚ) (risk_free_rate : ℚ) :
    Option ℝ :=
  if returns = [] ∨ returns.length < 2 then none
  else
    let mean : ℚ := returns.sum / (returns.length : ℚ)
    let variance : ℚ :=
      (returns.map (fun r => (r - mean) ^ 2)).sum / ((returns.length - 1 : ℕ) : ℚ)
    let std_dev : ℝ := Real.sqrt (variance : ℝ)
    if std_dev = 0 then none
    else some (((mean - risk_free_rate : ℚ) : ℝ) / std_dev)

open Classical in
/-- Models `sortino_ratio` from calculations.py: like Sharpe but the denominator is
the root mean square of the negative returns only (population form). -/
noncomputable def sortino_ratio' (returns : List ℚ) (risk_free_rate : ℚ) :
    Option ℝ :=
  if returns = [] ∨ returns.length < 2 then none
  else
    let mean : ℚ := returns.sum / (returns.length : ℚ)
    let downside_returns := returns.filter (fun r => r < 0)
    if downside_returns = [] then none
    else
      let downside_variance : ℚ :=
        (downside_returns.map (fun r => r ^ 2)).sum / (downside_returns.length : ℚ)
      let downside_dev : ℝ := Real.sqrt (downside_variance : ℝ)
      if downside_dev = 0 then none
      else some (((mean - risk_free_rate : ℚ) : ℝ) / downside_dev)

/-- Models `calmar_ratio` from calculations.py. -/
def calmar_ratio' (total_return max_dd : ℚ) : Option ℚ :=
  if max_dd = 0 ∨ max_dd < 0 then none
  else if 0 < max_dd then some |total_return / max_dd| else none

/-- Models `profit_factor` from calculations.py: `abs(gross_profit / gross_loss)`,
defined only when `gross_loss < 0`. -/
def profit_factor (gross_profit gross_loss : ℚ) : Option ℚ :=
  if gross_loss = 0 then none
  else if gross_loss < 0 then some |gross_profit / gross_loss| else none

/-- Models `expectancy` from calculations.py. -/
def expectancy (wins losses : List ℚ) (win_rate : ℚ) : Option ℚ :=
  if wins = [] ∧ losses = [] then none
  else
    let avg_win : ℚ := if wins ≠ [] then wins.sum / (wins.length : ℚ) else 0
    let avg_loss : ℚ := if losses ≠ [] then losses.sum / (losses.length : ℚ) else 0
    some (win_rate * avg_win + (1 - win_rate) * avg_loss)

/-! ## services/analytics_service.py -/

/-- Generic association-list lookup keyed by a decidable-equality type
(`lookupA` is the `String`-keyed version used by the engine). -/
def lookupK {κ α : Type} [DecidableEq κ] : List (κ × α) → κ → Option α
  | [], _ => none
  | (k', v) :: rest, k => if k' = k then some v else lookupK rest k

/-- Models `d[k] += v` on a defaultdict(float): add at an existing key, else append
with initial value `v`. -/
def addToKey {κ : Type} [DecidableEq κ] :
    List (κ × ℚ) → κ → ℚ → List (κ × ℚ)
  | [], k, v => [(k, v)]
  | (k', v') :: rest, k, v =>
      if k' = k then (k', v' + v) :: rest else (k', v') :: addToKey rest k v

/-- Lexicographic strict order on the characters of two strings — the order
Python's `sorted` uses on `str` (code-point lexicographic). -/
def charsLt : List Char → List Char → Bool
  | _, [] => false
  | [], _ :: _ => true
  | a :: as, b :: bs => if a < b then true else if b < a then false else charsLt as bs

/-- Models `sorted` on a list of strings (code-point lexicographic, modelled with a
stable insertion sort). -/
def sortedStrings (l : List String) : List String :=
  l.insertionSort (fun a b => charsLt b.data a.data = false)

/-- Models `sorted(d.items())` for an integer-keyed accumulator dict. -/
def sortedByIntKey (l : List (ℤ × ℚ)) : List (ℤ × ℚ) :=
  l.insertionSort (fun a b => a.1 ≤ b.1)

/-- Models `_normalize_marks` from analytics_service.py: uppercase/strip every key
(later duplicates overwrite earlier ones, as in a dict comprehension); an
absent (`None`) marks argument is the empty list. -/
def _normalize_marks (marks : List (String × ℚ)) : List (String × ℚ) :=
  marks.foldl (fun acc p => upsertA acc (normSym p.1) p.2) []

/-- One row of the `open_positions` summary in `overview_from_trades`. -/
structure OpenPositionRow where
  symbol : String
  side : String
  quantity : ℤ
  avg_cost : ℚ
  mark_price : ℚ
  unrealized_pnl : ℚ
deriving DecidableEq, Repr

/-- The dictionary returned by `overview_from_trades`, as a record.  The
`advanced_metrics`, `time_buckets` and `notes` sub-dicts are inlined as
fields; `risk_reward` is the `risk_reward_ratio` entry, `sharpe`/`sortino`/
`calmar`/`profit_factor_val`/`expectancy_val` the entries of
`advanced_metrics`. -/
structure OverviewResult where
  realized_pnl : ℚ
  unrealized_pnl : ℚ
  total_pnl : ℚ
  win_rate : ℚ
  avg_win : ℚ
  avg_loss : ℚ
  drawdown : ℚ
  risk_reward : Option ℚ
  sharpe : Option ℝ
  sortino : Option ℝ
  calmar : Option ℚ
  profit_factor_val : Option ℚ
  expectancy_val : Option ℚ
  avg_holding_period_days : Option ℚ
  pnl_by_hour : List (ℤ × ℚ)
  pnl_by_weekday : List (ℤ × ℚ)
  open_positions : List OpenPositionRow
  mark_price_source : String
  missing_marks : List String
  no_investment_advice : Bool

/-- Sort realized matches by exit time (`sorted(realized, key=...exit_time)`,
stable). -/
def sortByExit (realized : List RealizedMatch) : List RealizedMatch :=
  realized.insertionSort (fun a b => a.exit_time ≤ b.exit_time)

/-- The `# Open positions summary` loop of `overview_from_trades`: one row
per non-empty side of each symbol's position (a symbol with a nonzero long
and short quantity would contribute two rows and be recorded twice in
`open_symbols`, exactly as the source appends). -/
def open_positions_summary (positions : List (String × Position))
    (effective_mark unrealized_by_symbol : List (String × ℚ)) :
    List OpenPositionRow × List String :=
  positions.foldl
    (fun (acc : List OpenPositionRow × List String) p =>
      let sym := p.1
      let px := getDA effective_mark sym 0
      let long_qty : ℤ := (p.2.long.map (·.qty)).sum
      let short_qty : ℤ := (p.2.short.map (·.qty)).sum
      let acc1 :=
        if long_qty ≠ 0 then
          (acc.1 ++ [{ symbol := sym
                       side := "LONG"
                       quantity := long_qty
                       avg_cost := (p.2.long.map
                         (fun l => (l.price + l.fee_per_share) * (l.qty : ℚ))).sum
                           / (long_qty : ℚ)
                       mark_price := px
                       unrealized_pnl := getDA unrealized_by_symbol sym 0 }],
           acc.2 ++ [sym])
        else acc
      if short_qty ≠ 0 then
        (acc1.1 ++ [{ symbol := sym
                      side := "SHORT"
                      quantity := short_qty
                      avg_cost := (p.2.short.map
                        (fun l => (l.price - l.fee_per_share) * (l.qty : ℚ))).sum
                          / (short_qty : ℚ)
                      mark_price := px
                      unrealized_pnl := getDA unrealized_by_symbol sym 0 }],
         acc1.2 ++ [sym])
      else acc1)
    ([], [])

set_option maxHeartbeats 800000 in
/-- The body of `overview_from_trades` from analytics_service.py, up to but
not including the strict-mode check (every computation before the `raise` is
effect-free, so the check is equivalently performed on the completed
record — see `overview_from_trades` below). -/
noncomputable def overview_core (trades : List TradeRow)
    (marks : List (String × ℚ)) : OverviewResult :=
  let rpm := compute_fifo trades
  let realized := rpm.1
  let positions := rpm.2.1
  let last_trade_mark := rpm.2.2
  let marks_norm := _normalize_marks marks
  -- Effective mark uses provided marks when available (value > 0), otherwise
  -- falls back to last trade price.
  let effective_mark :=
    (marks_norm.filter (fun p => 0 < p.2)).foldl
      (fun acc p => upsertA acc p.1 p.2) last_trade_mark
  let unrealized_by_symbol := compute_unrealized positions effective_mark
  let realized_pnl := (realized.map (·.pnl)).sum
  let unrealized_pnl := (unrealized_by_symbol.map (·.2)).sum
  let total_pnl := realized_pnl + unrealized_pnl
  let wins := (realized.filter (fun m => 0 < m.pnl)).map (·.pnl)
  let losses := (realized.filter (fun m => m.pnl < 0)).map (·.pnl)
  let win_rate : ℚ := (wins.length : ℚ) / ((max 1 (wins.length + losses.length) : ℕ) : ℚ)
  let avg_win : ℚ := wins.sum / ((max 1 wins.length : ℕ) : ℚ)
  let avg_loss : ℚ := losses.sum / ((max 1 losses.length : ℕ) : ℚ)
  let risk_reward := if avg_loss < 0 then some (avg_win / |avg_loss|) else none
  let realized_sorted := sortByExit realized
  -- Equity curve based on realized exits
  let equity_points := (realized_sorted.foldl
    (fun (acc : ℚ × List EquityPoint) m =>
      (acc.1 + m.pnl, acc.2 ++ [{ t := m.exit_time, equity := acc.1 + m.pnl }]))
    (0, [])).2
  let drawdown := if equity_points ≠ [] then max_drawdown equity_points else 0
  let gross_profit := if wins ≠ [] then wins.sum else 0
  let gross_loss := if losses ≠ [] then losses.sum else 0
  let profit_factor_val := profit_factor gross_profit gross_loss
  let expectancy_val := expectancy wins losses win_rate
  let daily_returns := realized_sorted.map (·.pnl)
  let holding_periods := realized_sorted.map
    (fun m => ((m.exit_time - m.entry_time : ℤ) : ℚ) / 86400)
  let sharpe := if daily_returns ≠ [] then sharpe_ratio' daily_returns 0 else none
  let sortino := if daily_returns ≠ [] then sortino_ratio' daily_returns 0 else none
  let calmar := if 0 < drawdown then calmar_ratio' realized_pnl drawdown else none
  let avg_holding_period_days :=
    if holding_periods ≠ [] then
      some (holding_periods.sum / (holding_periods.length : ℚ))
    else none
  let pnl_by_hour := sortedByIntKey (realized_sorted.foldl
    (fun acc m => addToKey acc (bucket_hour m.exit_time) m.pnl) [])
  let pnl_by_weekday := sortedByIntKey (realized_sorted.foldl
    (fun acc m => addToKey acc (bucket_weekday m.exit_time) m.pnl) [])
  -- Open positions summary
  let acc := open_positions_summary positions effective_mark unrealized_by_symbol
  let open_positions := acc.1
  let open_symbols := acc.2
  let missing_marks := sortedStrings
    ((open_symbols.filter (fun s => (lookupA marks_norm s).isNone)).dedup)
  { realized_pnl := realized_pnl
    unrealized_pnl := unrealized_pnl
    total_pnl := total_pnl
    win_rate := win_rate
    avg_win := avg_win
    avg_loss := avg_loss
    drawdown := drawdown
    risk_reward := risk_reward
    sharpe := sharpe
    sortino := sortino
    calmar := calmar
    profit_factor_val := profit_factor_val
    expectancy_val := expectancy_val
    avg_holding_period_days := avg_holding_period_days
    pnl_by_hour := pnl_by_hour
    pnl_by_weekday := pnl_by_weekday
    open_positions := open_positions
    mark_price_source := "provided_marks_with_fallback_to_last_trade"
    missing_marks := missing_marks
    no_investment_advice := true }

/-- Models `overview_from_trades` from analytics_service.py.  The source raises
`ValueError(f"Missing marks for open symbols: ...")` when `strict` and the
missing-marks list is non-empty, otherwise returns the result dict; modelled
as `Except String OverviewResult`. -/
noncomputable def overview_from_trades (trades : List TradeRow)
    (marks : List (String × ℚ)) (strict : Bool) :
    Except String OverviewResult :=
  let res := overview_core trades marks
  if strict = true ∧ res.missing_marks ≠ [] then
    Except.error
      ("Missing marks for open symbols: " ++ String.intercalate ", " res.missing_marks)
  else
    Except.ok res

/-! ## services/tax_service.py -/

/-- Models `datetime.date()` as a day number: the number of whole days since
1970-01-01 (floor division, as Python's calendar arithmetic). -/
def dayOfTs (ts : ℤ) : ℤ :=
  ts.fdiv 86400

/-- The Gregorian calendar year containing a given day number (days since
1970-01-01): the standard civil-from-days conversion. -/
def yearOfDay (z0 : ℤ) : ℤ :=
  let z := z0 + 719468
  let era := z.fdiv 146097
  let doe := z - era * 146097
  let yoe := (doe - doe / 1460 + doe / 36524 - doe / 146096) / 365
  let y := yoe + era * 400
  let doy := doe - (365 * yoe + yoe / 4 - yoe / 100)
  let mp := (5 * doy + 2) / 153
  let m := if mp < 10 then mp + 3 else mp - 9
  if m ≤ 2 then y + 1 else y

/-- Models `dt.date().year` for a timestamp. -/
def yearOfTs (ts : ℤ) : ℤ :=
  yearOfDay (dayOfTs ts)

/-- Models `(match.exit_time - match.entry_time).days`: `timedelta.days` floors
toward minus infinity. -/
def holdingDays (m : RealizedMatch) : ℤ :=
  (m.exit_time - m.entry_time).fdiv 86400

/-- The `match_data` dict built inside `calculate_tax_classification`
(entry/exit times are serialized to ISO strings in the source; we keep the
timestamps themselves). -/
structure TaxMatchData where
  symbol : String
  qty : ℤ
  entry_time : ℤ
  exit_time : ℤ
  entry_price : ℚ
  exit_price : ℚ
  pnl : ℚ
  holding_days : ℤ
  entry_trade_id : String
  exit_trade_id : String
deriving DecidableEq, Repr

/-- Build the per-match record of `calculate_tax_classification`. -/
def tax_match_data (m : RealizedMatch) : TaxMatchData :=
  { symbol := m.symbol
    qty := m.qty
    entry_time := m.entry_time
    exit_time := m.exit_time
    entry_price := m.entry_price
    exit_price := m.exit_price
    pnl := m.pnl
    holding_days := holdingDays m
    entry_trade_id := m.entry_trade_id
    exit_trade_id := m.exit_trade_id }

/-- One entry of the `tax_loss_harvesting` list. -/
structure HarvestHint where
  type : String
  available_loss : ℚ
  could_offset : String
deriving DecidableEq, Repr

/-- The dictionary returned by `calculate_tax_classification`, flattened into
a record (`short_term` / `long_term` / `summary` / `tax_rates` / `notes`
sub-dicts become prefixed fields). -/
structure TaxResult where
  tax_year : ℤ
  short_term_gains : List TaxMatchData
  short_term_losses : List TaxMatchData
  long_term_gains : List TaxMatchData
  long_term_losses : List TaxMatchData
  st_total_gains : ℚ
  st_total_losses : ℚ
  lt_total_gains : ℚ
  lt_total_losses : ℚ
  net_short_term : ℚ
  net_long_term : ℚ
  st_count : ℕ
  lt_count : ℕ
  total_realized_pnl : ℚ
  short_term_taxable_gain : ℚ
  long_term_taxable_gain : ℚ
  short_term_tax : ℚ
  long_term_tax : ℚ
  total_tax : ℚ
  short_term_rate : ℚ
  long_term_rate : ℚ
  tax_loss_harvesting : List HarvestHint
  long_term_threshold_days : ℤ
deriving DecidableEq, Repr

/-- Models `calculate_tax_classification` from tax_service.py.  The source's single
loop appends each match whose exit year equals `tax_year` to exactly one of
four lists according to the sign of its pnl (zero-pnl matches go nowhere) and
its holding-period class; that loop is rendered as the four order-preserving
filters below. -/
def calculate_tax_classification (realized_matches : List RealizedMatch)
    (tax_year : ℤ) (long_term_days : ℤ := 365)
    (short_term_tax_rate : ℚ := 15) (long_term_tax_rate : ℚ := 10) :
    TaxResult :=
  let inYear := realized_matches.filter (fun m => yearOfTs m.exit_time = tax_year)
  let isLT := fun m => long_term_days ≤ holdingDays m
  let short_term_gains := (inYear.filter (fun m => 0 < m.pnl ∧ ¬ isLT m)).map tax_match_data
  let short_term_losses := (inYear.filter (fun m => m.pnl < 0 ∧ ¬ isLT m)).map tax_match_data
  let long_term_gains := (inYear.filter (fun m => 0 < m.pnl ∧ isLT m)).map tax_match_data
  let long_term_losses := (inYear.filter (fun m => m.pnl < 0 ∧ isLT m)).map tax_match_data
  let short_term_gain_total := (short_term_gains.map (·.pnl)).sum
  let short_term_loss_total := (short_term_losses.map (·.pnl)).sum
  let long_term_gain_total := (long_term_gains.map (·.pnl)).sum
  let long_term_loss_total := (long_term_losses.map (·.pnl)).sum
  let net_short_term := short_term_gain_total + short_term_loss_total
  let net_long_term := long_term_gain_total + long_term_loss_total
  let net_total := net_short_term + net_long_term
  -- only positive net gains are taxable
  let short_term_taxable_gain := max 0 net_short_term
  let long_term_taxable_gain := max 0 net_long_term
  let short_term_tax := short_term_taxable_gain * short_term_tax_rate / 100
  let long_term_tax := long_term_taxable_gain * long_term_tax_rate / 100
  let total_tax := short_term_tax + long_term_tax
  let tax_loss_harvesting :=
    (if short_term_loss_total < 0 ∧ 0 < short_term_gain_total then
      [({ type := "short_term", available_loss := |short_term_loss_total|,
          could_offset := "short_term_gains" } : HarvestHint)]
    else []) ++
    (if long_term_loss_total < 0 ∧ 0 < long_term_gain_total then
      [({ type := "long_term", available_loss := |long_term_loss_total|,
          could_offset := "long_term_gains" } : HarvestHint)]
    else [])
  { tax_year := tax_year
    short_term_gains := short_term_gains
    short_term_losses := short_term_losses
    long_term_gains := long_term_gains
    long_term_losses := long_term_losses
    st_total_gains := short_term_gain_total
    st_total_losses := short_term_loss_total
    lt_total_gains := long_term_gain_total
    lt_total_losses := long_term_loss_total
    net_short_term := net_short_term
    net_long_term := net_long_term
    st_count := short_term_gains.length + short_term_losses.length
    lt_count := long_term_gains.length + long_term_losses.length
    total_realized_pnl := net_total
    short_term_taxable_gain := short_term_taxable_gain
    long_term_taxable_gain := long_term_taxable_gain
    short_term_tax := short_term_tax
    long_term_tax := long_term_tax
    total_tax := total_tax
    short_term_rate := short_term_tax_rate
    long_term_rate := long_term_tax_rate
    tax_loss_harvesting := tax_loss_harvesting
    long_term_threshold_days := long_term_days }

/-- The position stored for a symbol (the empty position when the symbol has
never been traded), as read by the engine via `positions.setdefault` /
`positions[sym]`. -/
def getPosition (positions : List (String × Position)) (sym : String) : Position :=
  getDA positions sym { long := [], short := [] }

/-- Sum of the remaining quantities of a symbol's open long and short lots. -/
def openQty (positions : List (String × Position)) (sym : String) : ℤ :=
  ((getPosition positions sym).long.map (·.qty)).sum +
    ((getPosition positions sym).short.map (·.qty)).sum

/-- The state after `compute_fifo` has processed the first `n` of the
time-sorted trades. -/
def runPrefix (trades : List TradeRow) (n : ℕ) : EngineState :=
  ((sortTrades trades).take n).foldl processTrade
    { realized := [], positions := [], mark := [] }

def buyStep (st : EngineState) (t : TradeRow) : EngineState :=
  let sym := normSym t.symbol
  let positions1 := setdefaultA st.positions sym { long := [], short := [] }
  let pos := getPosition st.positions sym
  let buy_fee_ps := _fee_per_share t.quantity t.fees
  let r := drain_shorts sym t.id t.price t.trade_time buy_fee_ps t.quantity pos.short
  let newLong :=
    if 0 < r.2.1 then
      pos.long ++ [{ qty := r.2.1, trade_id := t.id, price := t.price,
                     fee_per_share := buy_fee_ps, time := t.trade_time }]
    else pos.long
  { realized := st.realized ++ r.1
    positions := upsertA positions1 sym { long := newLong, short := r.2.2 }
    mark := upsertA st.mark sym t.price }

def sellStep (st : EngineState) (t : TradeRow) : EngineState :=
  let sym := normSym t.symbol
  let positions1 := setdefaultA st.positions sym { long := [], short := [] }
  let pos := getPosition st.positions sym
  let sell_fee_ps := _fee_per_share t.quantity t.fees
  let r := drain_longs sym t.id t.price t.trade_time sell_fee_ps t.quantity pos.long
  let newShort :=
    if 0 < r.2.1 then
      pos.short ++ [{ qty := r.2.1, trade_id := t.id, price := t.price,
                      fee_per_share := sell_fee_ps, time := t.trade_time }]
    else pos.short
  { realized := st.realized ++ r.1
    positions := upsertA positions1 sym { long := r.2.2, short := newShort }
    mark := upsertA st.mark sym t.price }

/-- Total matched quantity recorded for a symbol. -/
def matchedQty (realized : List RealizedMatch) (sym : String) : ℤ :=
  ((realized.filter (fun m => m.symbol = sym)).map (·.qty)).sum

/-- The conserved per-symbol quantity: every matched unit is counted twice
(once against the entry trade, once against the exit trade), every open unit
once. -/
def balance (st : EngineState) (sym : String) : ℤ :=
  2 * matchedQty st.realized sym + openQty st.positions sym

/-- At most one side of any symbol's position is ever populated. -/
def Exclusive (positions : List (String × Position)) : Prop :=
  ∀ sym, (getPosition positions sym).long = [] ∨ (getPosition positions sym).short = []

end Portox

namespace Portox

/-! ## Association-list lemmas -/

theorem lookupA_upsertA_self {α : Type} (m : List (String × α)) (k : String) (v : α) :
    lookupA (upsertA m k v) k = some v := by
  induction m with
  | nil => simp [upsertA, lookupA]
  | cons hd tl ih =>
      by_cases h : hd.1 = k
      · simp [upsertA, h, lookupA]
      · simp only [upsertA, h, if_false, lookupA]
        simpa [h] using ih

theorem lookupA_upsertA_ne {α : Type} (m : List (String × α)) (k k' : String) (v : α)
    (h : k' ≠ k) : lookupA (upsertA m k v) k' = lookupA m k' := by
  induction m with
  | nil =>
      simp only [upsertA, lookupA]
      rw [if_neg (Ne.symm h)]
  | cons hd tl ih =>
      by_cases hh : hd.1 = k
      · simp only [upsertA, hh, if_true, lookupA]
        rw [if_neg (Ne.symm h), if_neg (Ne.symm h)]
      · simp only [upsertA, hh, if_false, lookupA]
        by_cases hk : hd.1 = k'
        · rw [if_pos hk, if_pos hk]
        · rw [if_neg hk, if_neg hk]
          exact ih

theorem lookupA_append_single_self {α : Type} (m : List (String × α)) (k : String)
    (v : α) (hm : lookupA m k = none) : lookupA (m ++ [(k, v)]) k = some v := by
  induction m with
  | nil => simp [lookupA]
  | cons hd tl ih =>
      by_cases h : hd.1 = k
      · rw [lookupA, if_pos h] at hm
        exact absurd hm (by simp)
      · rw [lookupA, if_neg h] at hm
        simp only [List.cons_append, lookupA]
        rw [if_neg h]
        exact ih hm

theorem lookupA_setdefaultA_self {α : Type} (m : List (String × α)) (k : String) (v : α) :
    lookupA (setdefaultA m k v) k = some ((lookupA m k).getD v) := by
  unfold setdefaultA
  cases hm : lookupA m k with
  | none =>
      simp only [hm, Option.isSome_none, Bool.false_eq_true, if_false, Option.getD_none]
      exact lookupA_append_single_self m k v hm
  | some w =>
      simp [hm]

theorem lookupA_append_single_ne {α : Type} (m : List (String × α)) (k k' : String)
    (v : α) (h : k' ≠ k) : lookupA (m ++ [(k, v)]) k' = lookupA m k' := by
  induction m with
  | nil =>
      simp only [List.nil_append, lookupA]
      rw [if_neg (Ne.symm h)]
  | cons hd tl ih =>
      by_cases hk : hd.1 = k'
      · simp only [List.cons_append, lookupA]
        rw [if_pos hk, if_pos hk]
      · simp only [List.cons_append, lookupA]
        rw [if_neg hk, if_neg hk]
        exact ih

theorem lookupA_setdefaultA_ne {α : Type} (m : List (String × α)) (k k' : String) (v : α)
    (h : k' ≠ k) : lookupA (setdefaultA m k v) k' = lookupA m k' := by
  unfold setdefaultA
  by_cases hm : (lookupA m k).isSome
  · simp [hm]
  · simp only [hm, Bool.false_eq_true, if_false]
    exact lookupA_append_single_ne m k k' v h

theorem mem_upsertA {α : Type} (m : List (String × α)) (k : String) (v : α)
    (sp : String × α) (hsp : sp ∈ upsertA m k v) : sp.2 = v ∨ sp ∈ m := by
  induction m with
  | nil =>
      simp only [upsertA, List.mem_singleton] at hsp
      left
      rw [hsp]
  | cons hd tl ih =>
      by_cases h : hd.1 = k
      · simp only [upsertA, h, if_true, List.mem_cons] at hsp
        rcases hsp with h1 | h2
        · left; rw [h1]
        · right; exact List.mem_cons_of_mem _ h2
      · simp only [upsertA, h, if_false, List.mem_cons] at hsp
        rcases hsp with h1 | h2
        · right; rw [h1]; exact List.mem_cons_self _ _
        · rcases ih h2 with h3 | h4
          · left; exact h3
          · right; exact List.mem_cons_of_mem _ h4

theorem mem_setdefaultA {α : Type} (m : List (String × α)) (k : String) (v : α)
    (sp : String × α) (hsp : sp ∈ setdefaultA m k v) : sp.2 = v ∨ sp ∈ m := by
  unfold setdefaultA at hsp
  by_cases hm : (lookupA m k).isSome
  · simp only [hm, if_true] at hsp
    right; exact hsp
  · simp only [hm, Bool.false_eq_true, if_false, List.mem_append,
      List.mem_singleton] at hsp
    rcases hsp with h1 | h2
    · right; exact h1
    · left; rw [h2]

theorem lookupA_mem {α : Type} (m : List (String × α)) (k : String) (v : α)
    (h : lookupA m k = some v) : (k, v) ∈ m := by
  induction m with
  | nil => simp [lookupA] at h
  | cons hd tl ih =>
      by_cases hh : hd.1 = k
      · simp only [lookupA, hh, if_true, Option.some.injEq] at h
        exact List.mem_cons.2 (Or.inl (Prod.ext hh.symm h.symm))
      · simp only [lookupA, hh, if_false] at h
        exact List.mem_cons_of_mem _ (ih h)

/-! ## Drain-loop lemmas

The two `while` loops of `compute_fifo` decrement the incoming trade's
`remaining` and the head lot's `qty` by the same matched quantity at every
step; these lemmas capture the resulting accounting identities. -/

theorem drain_longs_conservation (sym tid : String) (price : ℚ) (ttime : ℤ)
    (fps : ℚ) (lots : List Lot) (r : ℤ) :
    (((drain_longs sym tid price ttime fps r lots).1.map (·.qty)).sum
        = r - (drain_longs sym tid price ttime fps r lots).2.1)
    ∧ (((drain_longs sym tid price ttime fps r lots).2.2.map (·.qty)).sum
        = (lots.map (·.qty)).sum - (r - (drain_longs sym tid price ttime fps r lots).2.1)) := by
  induction lots generalizing r with
  | nil => simp [drain_longs]
  | cons lot rest ih =>
      by_cases h0 : r ≤ 0
      · simp [drain_longs, h0]
      · by_cases hq : lot.qty - min r lot.qty = 0
        · obtain ⟨ih1, ih2⟩ := ih (r - min r lot.qty)
          simp only [drain_longs, h0, hq, if_true, if_false, List.map_cons,
            List.sum_cons, List.map_nil, List.sum_nil, ih1, ih2]
          constructor <;> omega
        · simp only [drain_longs, h0, hq, if_true, if_false, List.map_cons,
            List.sum_cons, List.map_nil, List.sum_nil]
          constructor <;> omega

theorem drain_longs_rem_nonneg (sym tid : String) (price : ℚ) (ttime : ℤ)
    (fps : ℚ) (lots : List Lot) (r : ℤ) (hr : 0 ≤ r) :
    0 ≤ (drain_longs sym tid price ttime fps r lots).2.1 := by
  induction lots generalizing r with
  | nil => simpa [drain_longs] using hr
  | cons lot rest ih =>
      by_cases h0 : r ≤ 0
      · simpa [drain_longs, h0] using hr
      · by_cases hq : lot.qty - min r lot.qty = 0
        · simp only [drain_longs, h0, hq, if_true, if_false]
          exact ih _ (by omega)
        · simp only [drain_longs, h0, hq, if_true, if_false]
          omega

theorem drain_longs_rem_pos_empty (sym tid : String) (price : ℚ) (ttime : ℤ)
    (fps : ℚ) (lots : List Lot) (r : ℤ)
    (h : 0 < (drain_longs sym tid price ttime fps r lots).2.1) :
    (drain_longs sym tid price ttime fps r lots).2.2 = [] := by
  induction lots generalizing r with
  | nil => simp [drain_longs]
  | cons lot rest ih =>
      by_cases h0 : r ≤ 0
      · simp only [drain_longs, h0, if_true] at h
        omega
      · by_cases hq : lot.qty - min r lot.qty = 0
        · simp only [drain_longs, h0, hq, if_true, if_false] at h ⊢
          exact ih _ h
        · simp only [drain_longs, h0, hq, if_true, if_false] at h ⊢
          exfalso
          omega

theorem drain_longs_lots_pos (sym tid : String) (price : ℚ) (ttime : ℤ)
    (fps : ℚ) (lots : List Lot) (r : ℤ) (hl : ∀ l ∈ lots, 1 ≤ l.qty) :
    ∀ l ∈ (drain_longs sym tid price ttime fps r lots).2.2, 1 ≤ l.qty := by
  induction lots generalizing r with
  | nil => simp [drain_longs]
  | cons lot rest ih =>
      by_cases h0 : r ≤ 0
      · simpa [drain_longs, h0] using hl
      · by_cases hq : lot.qty - min r lot.qty = 0
        · simp only [drain_longs, h0, hq, if_true, if_false]
          exact ih _ (fun l hl' => hl l (List.mem_cons_of_mem _ hl'))
        · simp only [drain_longs, h0, hq, if_true, if_false]
          intro l hl'
          rcases List.mem_cons.1 hl' with h1 | h2
          · rw [h1]
            have := hl lot (List.mem_cons_self _ _)
            simp only
            omega
          · exact hl l (List.mem_cons_of_mem _ h2)

theorem drain_longs_matches_qty_pos (sym tid : String) (price : ℚ) (ttime : ℤ)
    (fps : ℚ) (lots : List Lot) (r : ℤ) (hl : ∀ l ∈ lots, 1 ≤ l.qty) :
    ∀ rm ∈ (drain_longs sym tid price ttime fps r lots).1, 1 ≤ rm.qty := by
  induction lots generalizing r with
  | nil => simp [drain_longs]
  | cons lot rest ih =>
      by_cases h0 : r ≤ 0
      · simp [drain_longs, h0]
      · by_cases hq : lot.qty - min r lot.qty = 0
        · simp only [drain_longs, h0, hq, if_true, if_false]
          intro rm hrm
          rcases List.mem_cons.1 hrm with h1 | h2
          · rw [h1]
            have := hl lot (List.mem_cons_self _ _)
            simp only
            omega
          · exact ih _ (fun l hl' => hl l (List.mem_cons_of_mem _ hl')) rm h2
        · simp only [drain_longs, h0, hq, if_true, if_false]
          intro rm hrm
          rcases List.mem_singleton.1 hrm with h1
          rw [h1]
          have := hl lot (List.mem_cons_self _ _)
          simp only
          omega

theorem drain_longs_matches_src (sym tid : String) (price : ℚ) (ttime : ℤ)
    (fps : ℚ) (lots : List Lot) (r : ℤ) :
    ∀ rm ∈ (drain_longs sym tid price ttime fps r lots).1,
      rm.symbol = sym ∧ rm.exit_trade_id = tid ∧ rm.exit_price = price ∧
      rm.exit_time = ttime ∧ rm.side_closed = SideClosed.LONG ∧
      ∃ l ∈ lots, rm.entry_trade_id = l.trade_id ∧ rm.entry_price = l.price ∧
        rm.entry_time = l.time ∧
        rm.pnl = (price - l.price) * (rm.qty : ℚ) -
          (l.fee_per_share + fps) * (rm.qty : ℚ) := by
  induction lots generalizing r with
  | nil => simp [drain_longs]
  | cons lot rest ih =>
      by_cases h0 : r ≤ 0
      · simp [drain_longs, h0]
      · by_cases hq : lot.qty - min r lot.qty = 0
        · simp only [drain_longs, h0, hq, if_true, if_false]
          intro rm hrm
          rcases List.mem_cons.1 hrm with h1 | h2
          · subst h1
            refine ⟨rfl, rfl, rfl, rfl, rfl, lot, List.mem_cons_self _ _, rfl, rfl, rfl, rfl⟩
          · obtain ⟨a1, a2, a3, a4, a5, l, hlmem, b⟩ := ih _ rm h2
            exact ⟨a1, a2, a3, a4, a5, l, List.mem_cons_of_mem _ hlmem, b⟩
        · simp only [drain_longs, h0, hq, if_true, if_false]
          intro rm hrm
          rcases List.mem_singleton.1 hrm with h1
          subst h1
          refine ⟨rfl, rfl, rfl, rfl, rfl, lot, List.mem_cons_self _ _, rfl, rfl, rfl, rfl⟩

theorem drain_longs_lots_src (sym tid : String) (price : ℚ) (ttime : ℤ)
    (fps : ℚ) (lots : List Lot) (r : ℤ) :
    ∀ l' ∈ (drain_longs sym tid price ttime fps r lots).2.2,
      ∃ l ∈ lots, l'.time = l.time := by
  induction lots generalizing r with
  | nil => simp [drain_longs]
  | cons lot rest ih =>
      by_cases h0 : r ≤ 0
      · simp only [drain_longs, h0, if_true]
        intro l' hl'
        rcases List.mem_cons.1 hl' with h1 | h2
        · exact ⟨lot, List.mem_cons_self _ _, by rw [h1]⟩
        · exact ⟨l', List.mem_cons_of_mem _ h2, rfl⟩
      · by_cases hq : lot.qty - min r lot.qty = 0
        · simp only [drain_longs, h0, hq, if_true, if_false]
          intro l' hl'
          obtain ⟨l, hlmem, he⟩ := ih _ l' hl'
          exact ⟨l, List.mem_cons_of_mem _ hlmem, he⟩
        · simp only [drain_longs, h0, hq, if_true, if_false]
          intro l' hl'
          rcases List.mem_cons.1 hl' with h1 | h2
          · exact ⟨lot, List.mem_cons_self _ _, by rw [h1]⟩
          · exact ⟨l', List.mem_cons_of_mem _ h2, rfl⟩

theorem drain_shorts_conservation (sym tid : String) (price : ℚ) (ttime : ℤ)
    (fps : ℚ) (lots : List Lot) (r : ℤ) :
    (((drain_shorts sym tid price ttime fps r lots).1.map (·.qty)).sum
        = r - (drain_shorts sym tid price ttime fps r lots).2.1)
    ∧ (((drain_shorts sym tid price ttime fps r lots).2.2.map (·.qty)).sum
        = (lots.map (·.qty)).sum - (r - (drain_shorts sym tid price ttime fps r lots).2.1)) := by
  induction lots generalizing r with
  | nil => simp [drain_shorts]
  | cons lot rest ih =>
      by_cases h0 : r ≤ 0
      · simp [drain_shorts, h0]
      · by_cases hq : lot.qty - min r lot.qty = 0
        · obtain ⟨ih1, ih2⟩ := ih (r - min r lot.qty)
          simp only [drain_shorts, h0, hq, if_true, if_false, List.map_cons,
            List.sum_cons, List.map_nil, List.sum_nil, ih1, ih2]
          constructor <;> omega
        · simp only [drain_shorts, h0, hq, if_true, if_false, List.map_cons,
            List.sum_cons, List.map_nil, List.sum_nil]
          constructor <;> omega

theorem drain_shorts_rem_nonneg (sym tid : String) (price : ℚ) (ttime : ℤ)
    (fps : ℚ) (lots : List Lot) (r : ℤ) (hr : 0 ≤ r) :
    0 ≤ (drain_shorts sym tid price ttime fps r lots).2.1 := by
  induction lots generalizing r with
  | nil => simpa [drain_shorts] using hr
  | cons lot rest ih =>
      by_cases h0 : r ≤ 0
      · simpa [drain_shorts, h0] using hr
      · by_cases hq : lot.qty - min r lot.qty = 0
        · simp only [drain_shorts, h0, hq, if_true, if_false]
          exact ih _ (by omega)
        · simp only [drain_shorts, h0, hq, if_true, if_false]
          omega

theorem drain_shorts_rem_pos_empty (sym tid : String) (price : ℚ) (ttime : ℤ)
    (fps : ℚ) (lots : List Lot) (r : ℤ)
    (h : 0 < (drain_shorts sym tid price ttime fps r lots).2.1) :
    (drain_shorts sym tid price ttime fps r lots).2.2 = [] := by
  induction lots generalizing r with
  | nil => simp [drain_shorts]
  | cons lot rest ih =>
      by_cases h0 : r ≤ 0
      · simp only [drain_shorts, h0, if_true] at h
        omega
      · by_cases hq : lot.qty - min r lot.qty = 0
        · simp only [drain_shorts, h0, hq, if_true, if_false] at h ⊢
          exact ih _ h
        · simp only [drain_shorts, h0, hq, if_true, if_false] at h ⊢
          exfalso
          omega

theorem drain_shorts_lots_pos (sym tid : String) (price : ℚ) (ttime : ℤ)
    (fps : ℚ) (lots : List Lot) (r : ℤ) (hl : ∀ l ∈ lots, 1 ≤ l.qty) :
    ∀ l ∈ (drain_shorts sym tid price ttime fps r lots).2.2, 1 ≤ l.qty := by
  induction lots generalizing r with
  | nil => simp [drain_shorts]
  | cons lot rest ih =>
      by_cases h0 : r ≤ 0
      · simpa [drain_shorts, h0] using hl
      · by_cases hq : lot.qty - min r lot.qty = 0
        · simp only [drain_shorts, h0, hq, if_true, if_false]
          exact ih _ (fun l hl' => hl l (List.mem_cons_of_mem _ hl'))
        · simp only [drain_shorts, h0, hq, if_true, if_false]
          intro l hl'
          rcases List.mem_cons.1 hl' with h1 | h2
          · rw [h1]
            have := hl lot (List.mem_cons_self _ _)
            simp only
            omega
          · exact hl l (List.mem_cons_of_mem _ h2)

theorem drain_shorts_matches_qty_pos (sym tid : String) (price : ℚ) (ttime : ℤ)
    (fps : ℚ) (lots : List Lot) (r : ℤ) (hl : ∀ l ∈ lots, 1 ≤ l.qty) :
    ∀ rm ∈ (drain_shorts sym tid price ttime fps r lots).1, 1 ≤ rm.qty := by
  induction lots generalizing r with
  | nil => simp [drain_shorts]
  | cons lot rest ih =>
      by_cases h0 : r ≤ 0
      · simp [drain_shorts, h0]
      · by_cases hq : lot.qty - min r lot.qty = 0
        · simp only [drain_shorts, h0, hq, if_true, if_false]
          intro rm hrm
          rcases List.mem_cons.1 hrm with h1 | h2
          · rw [h1]
            have := hl lot (List.mem_cons_self _ _)
            simp only
            omega
          · exact ih _ (fun l hl' => hl l (List.mem_cons_of_mem _ hl')) rm h2
        · simp only [drain_shorts, h0, hq, if_true, if_false]
          intro rm hrm
          rcases List.mem_singleton.1 hrm with h1
          rw [h1]
          have := hl lot (List.mem_cons_self _ _)
          simp only
          omega

theorem drain_shorts_matches_src (sym tid : String) (price : ℚ) (ttime : ℤ)
    (fps : ℚ) (lots : List Lot) (r : ℤ) :
    ∀ rm ∈ (drain_shorts sym tid price ttime fps r lots).1,
      rm.symbol = sym ∧ rm.exit_trade_id = tid ∧ rm.exit_price = price ∧
      rm.exit_time = ttime ∧ rm.side_closed = SideClosed.SHORT ∧
      ∃ l ∈ lots, rm.entry_trade_id = l.trade_id ∧ rm.entry_price = l.price ∧
        rm.entry_time = l.time ∧
        rm.pnl = (l.price - price) * (rm.qty : ℚ) -
          (l.fee_per_share + fps) * (rm.qty : ℚ) := by
  induction lots generalizing r with
  | nil => simp [drain_shorts]
  | cons lot rest ih =>
      by_cases h0 : r ≤ 0
      · simp [drain_shorts, h0]
      · by_cases hq : lot.qty - min r lot.qty = 0
        · simp only [drain_shorts, h0, hq, if_true, if_false]
          intro rm hrm
          rcases List.mem_cons.1 hrm with h1 | h2
          · subst h1
            refine ⟨rfl, rfl, rfl, rfl, rfl, lot, List.mem_cons_self _ _, rfl, rfl, rfl, rfl⟩
          · obtain ⟨a1, a2, a3, a4, a5, l, hlmem, b⟩ := ih _ rm h2
            exact ⟨a1, a2, a3, a4, a5, l, List.mem_cons_of_mem _ hlmem, b⟩
        · simp only [drain_shorts, h0, hq, if_true, if_false]
          intro rm hrm
          rcases List.mem_singleton.1 hrm with h1
          subst h1
          refine ⟨rfl, rfl, rfl, rfl, rfl, lot, List.mem_cons_self _ _, rfl, rfl, rfl, rfl⟩

theorem drain_shorts_lots_src (sym tid : String) (price : ℚ) (ttime : ℤ)
    (fps : ℚ) (lots : List Lot) (r : ℤ) :
    ∀ l' ∈ (drain_shorts sym tid price ttime fps r lots).2.2,
      ∃ l ∈ lots, l'.time = l.time := by
  induction lots generalizing r with
  | nil => simp [drain_shorts]
  | cons lot rest ih =>
      by_cases h0 : r ≤ 0
      · simp only [drain_shorts, h0, if_true]
        intro l' hl'
        rcases List.mem_cons.1 hl' with h1 | h2
        · exact ⟨lot, List.mem_cons_self _ _, by rw [h1]⟩
        · exact ⟨l', List.mem_cons_of_mem _ h2, rfl⟩
      · by_cases hq : lot.qty - min r lot.qty = 0
        · simp only [drain_shorts, h0, hq, if_true, if_false]
          intro l' hl'
          obtain ⟨l, hlmem, he⟩ := ih _ l' hl'
          exact ⟨l, List.mem_cons_of_mem _ hlmem, he⟩
        · simp only [drain_shorts, h0, hq, if_true, if_false]
          intro l' hl'
          rcases List.mem_cons.1 hl' with h1 | h2
          · exact ⟨lot, List.mem_cons_self _ _, by rw [h1]⟩
          · exact ⟨l', List.mem_cons_of_mem _ h2, rfl⟩


/-! ## `processTrade` in branch form

`buyStep`/`sellStep` restate the two branches of `processTrade` with the
drained position read directly from the pre-trade state (equal to the
post-`setdefault` read, `getDA_setdefaultA`); the invariant proofs below work
against these forms. -/

theorem getDA_setdefaultA {α : Type} (m : List (String × α)) (k : String) (v : α) :
    getDA (setdefaultA m k v) k v = getDA m k v := by
  unfold getDA
  rw [lookupA_setdefaultA_self]
  cases lookupA m k <;> simp

theorem processTrade_buy (st : EngineState) (t : TradeRow) (h : t.side = Side.BUY) :
    processTrade st t = buyStep st t := by
  simp only [processTrade, buyStep, h, getPosition, getDA_setdefaultA]

theorem processTrade_sell (st : EngineState) (t : TradeRow) (h : t.side = Side.SELL) :
    processTrade st t = sellStep st t := by
  simp only [processTrade, sellStep, h, getPosition, getDA_setdefaultA]

/-! ## Quantity conservation (claim C1 infrastructure) -/

theorem matchedQty_append (a b : List RealizedMatch) (sym : String) :
    matchedQty (a ++ b) sym = matchedQty a sym + matchedQty b sym := by
  simp [matchedQty, List.filter_append]

theorem matchedQty_all_eq {ms : List RealizedMatch} {S : String}
    (h : ∀ m ∈ ms, m.symbol = S) :
    matchedQty ms S = (ms.map (·.qty)).sum := by
  unfold matchedQty
  congr 1
  rw [List.filter_eq_self.2]
  intro m hm
  simp [h m hm]

theorem matchedQty_all_ne {ms : List RealizedMatch} {S sym : String}
    (hne : S ≠ sym) (h : ∀ m ∈ ms, m.symbol = S) :
    matchedQty ms sym = 0 := by
  unfold matchedQty
  rw [List.filter_eq_nil_iff.2]
  · simp
  · intro m hm
    simp [h m hm, hne]

theorem openQty_upsertA_self (m : List (String × Position)) (S : String) (p : Position) :
    openQty (upsertA m S p) S =
      (p.long.map (·.qty)).sum + (p.short.map (·.qty)).sum := by
  simp [openQty, getPosition, getDA, lookupA_upsertA_self]

theorem openQty_update_ne (m : List (String × Position)) (S sym : String)
    (p d : Position) (h : sym ≠ S) :
    openQty (upsertA (setdefaultA m S d) S p) sym = openQty m sym := by
  simp [openQty, getPosition, getDA, lookupA_upsertA_ne _ _ _ _ h,
    lookupA_setdefaultA_ne _ _ _ _ h]

theorem balance_buyStep (st : EngineState) (t : TradeRow) (hq : 0 ≤ t.quantity)
    (sym : String) :
    balance (buyStep st t) sym =
      balance st sym + (if normSym t.symbol = sym then t.quantity else 0) := by
  unfold balance buyStep
  simp only
  set S := normSym t.symbol with hS
  set pos := getPosition st.positions S with hpos
  set fps := _fee_per_share t.quantity t.fees with hfps
  set res := drain_shorts S t.id t.price t.trade_time fps t.quantity pos.short with hres
  have hsrc := drain_shorts_matches_src S t.id t.price t.trade_time fps pos.short t.quantity
  have hsym : ∀ m ∈ res.1, m.symbol = S := fun m hm => (hsrc m hm).1
  have hcons := drain_shorts_conservation S t.id t.price t.trade_time fps pos.short t.quantity
  have hrem := drain_shorts_rem_nonneg S t.id t.price t.trade_time fps pos.short t.quantity hq
  rw [← hres] at hcons hrem
  rw [matchedQty_append]
  by_cases hs : S = sym
  · subst hs
    rw [if_pos rfl, matchedQty_all_eq hsym, openQty_upsertA_self]
    have hopen : openQty st.positions S =
        (pos.long.map (·.qty)).sum + (pos.short.map (·.qty)).sum := by
      simp [openQty, hpos]
    rw [hopen]
    by_cases h0 : 0 < res.2.1
    · rw [if_pos h0]
      dsimp only
      simp only [List.map_append, List.sum_append, List.map_cons, List.sum_cons,
        List.map_nil, List.sum_nil]
      omega
    · rw [if_neg h0]
      dsimp only
      omega
  · rw [if_neg hs, matchedQty_all_ne hs hsym,
      openQty_update_ne st.positions S sym _ _ (fun h => hs h.symm)]
    omega

theorem balance_sellStep (st : EngineState) (t : TradeRow) (hq : 0 ≤ t.quantity)
    (sym : String) :
    balance (sellStep st t) sym =
      balance st sym + (if normSym t.symbol = sym then t.quantity else 0) := by
  unfold balance sellStep
  simp only
  set S := normSym t.symbol with hS
  set pos := getPosition st.positions S with hpos
  set fps := _fee_per_share t.quantity t.fees with hfps
  set res := drain_longs S t.id t.price t.trade_time fps t.quantity pos.long with hres
  have hsrc := drain_longs_matches_src S t.id t.price t.trade_time fps pos.long t.quantity
  have hsym : ∀ m ∈ res.1, m.symbol = S := fun m hm => (hsrc m hm).1
  have hcons := drain_longs_conservation S t.id t.price t.trade_time fps pos.long t.quantity
  have hrem := drain_longs_rem_nonneg S t.id t.price t.trade_time fps pos.long t.quantity hq
  rw [← hres] at hcons hrem
  rw [matchedQty_append]
  by_cases hs : S = sym
  · subst hs
    rw [if_pos rfl, matchedQty_all_eq hsym, openQty_upsertA_self]
    have hopen : openQty st.positions S =
        (pos.long.map (·.qty)).sum + (pos.short.map (·.qty)).sum := by
      simp [openQty, hpos]
    rw [hopen]
    by_cases h0 : 0 < res.2.1
    · rw [if_pos h0]
      dsimp only
      simp only [List.map_append, List.sum_append, List.map_cons, List.sum_cons,
        List.map_nil, List.sum_nil]
      omega
    · rw [if_neg h0]
      dsimp only
      omega
  · rw [if_neg hs, matchedQty_all_ne hs hsym,
      openQty_update_ne st.positions S sym _ _ (fun h => hs h.symm)]
    omega

theorem balance_processTrade (st : EngineState) (t : TradeRow) (hq : 0 ≤ t.quantity)
    (sym : String) :
    balance (processTrade st t) sym =
      balance st sym + (if normSym t.symbol = sym then t.quantity else 0) := by
  cases h : t.side
  · rw [processTrade_buy st t h]
    exact balance_buyStep st t hq sym
  · rw [processTrade_sell st t h]
    exact balance_sellStep st t hq sym

theorem balance_foldl (l : List TradeRow) (st : EngineState)
    (hq : ∀ t ∈ l, 0 ≤ t.quantity) (sym : String) :
    balance (l.foldl processTrade st) sym =
      balance st sym + ((l.filter (fun t => normSym t.symbol = sym)).map (·.quantity)).sum := by
  induction l generalizing st with
  | nil => simp
  | cons t rest ih =>
      rw [List.foldl_cons, ih _ (fun u hu => hq u (List.mem_cons_of_mem _ hu)),
        balance_processTrade st t (hq t (List.mem_cons_self _ _)) sym]
      by_cases hs : normSym t.symbol = sym
      · simp only [List.filter_cons, hs, decide_True, if_true, List.map_cons,
          List.sum_cons]
        omega
      · simp only [List.filter_cons, hs, decide_False, Bool.false_eq_true,
          if_false]
        omega

instance : IsTotal TradeRow (fun a b => a.trade_time ≤ b.trade_time) :=
  ⟨fun _ _ => le_total _ _⟩

instance : IsTrans TradeRow (fun a b => a.trade_time ≤ b.trade_time) :=
  ⟨fun _ _ _ hab hbc => le_trans hab hbc⟩

theorem sortTrades_perm (trades : List TradeRow) : (sortTrades trades).Perm trades :=
  List.perm_insertionSort _ trades

theorem sortTrades_sorted (trades : List TradeRow) :
    List.Pairwise (fun a b => a.trade_time ≤ b.trade_time) (sortTrades trades) :=
  List.sorted_insertionSort _ trades

theorem balance_init (sym : String) :
    balance { realized := [], positions := [], mark := [] } sym = 0 := by
  simp [balance, matchedQty, openQty, getPosition, getDA, lookupA]

/-- C1: For every trade list of (per the `Trade` data model) positive
quantities and every symbol: twice the total matched quantity for that symbol
plus the remaining open long and short quantity for that symbol equals the
total traded quantity of the trades normalizing to that symbol — each matched
unit consumes one unit of the entry trade and one of the exit trade. -/
theorem fifo_quantity_conservation (trades : List TradeRow)
    (h : ∀ t ∈ trades, 0 < t.quantity) (sym : String) :
    2 * matchedQty (compute_fifo trades).1 sym
      + openQty (compute_fifo trades).2.1 sym
    = ((trades.filter (fun t => normSym t.symbol = sym)).map (·.quantity)).sum := by
  have hq : ∀ t ∈ sortTrades trades, 0 ≤ t.quantity := fun t ht =>
    le_of_lt (h t ((sortTrades_perm trades).mem_iff.1 ht))
  have hfold := balance_foldl (sortTrades trades)
    { realized := [], positions := [], mark := [] } hq sym
  rw [balance_init] at hfold
  have hlhs : 2 * matchedQty (compute_fifo trades).1 sym
      + openQty (compute_fifo trades).2.1 sym
      = balance ((sortTrades trades).foldl processTrade
          { realized := [], positions := [], mark := [] }) sym := rfl
  rw [hlhs, hfold, zero_add]
  exact (((sortTrades_perm trades).filter _).map (·.quantity)).sum_eq

/-- Concrete instance of `fifo_quantity_conservation`: a single BUY of two
units leaves nothing matched and two units open. -/
theorem fifo_quantity_conservation_witness :
    (∀ t ∈ [({ id := "t1", user_id := "u", symbol := "X", side := Side.BUY,
               quantity := 2, price := 1, trade_time := 0, fees := 0 } : TradeRow)],
        0 < t.quantity)
    ∧ 2 * matchedQty (compute_fifo
          [{ id := "t1", user_id := "u", symbol := "X", side := Side.BUY,
             quantity := 2, price := 1, trade_time := 0, fees := 0 }]).1 "X"
        + openQty (compute_fifo
          [{ id := "t1", user_id := "u", symbol := "X", side := Side.BUY,
             quantity := 2, price := 1, trade_time := 0, fees := 0 }]).2.1 "X"
      = (([({ id := "t1", user_id := "u", symbol := "X", side := Side.BUY,
              quantity := 2, price := 1, trade_time := 0, fees := 0 } : TradeRow)].filter
            (fun t => normSym t.symbol = "X")).map (·.quantity)).sum :=
  ⟨by decide, fifo_quantity_conservation _ (by decide) "X"⟩

/-! ## Long/short exclusivity (claim C3 infrastructure) -/

theorem getPosition_update_self (m : List (String × Position)) (S : String)
    (p d : Position) :
    getPosition (upsertA (setdefaultA m S d) S p) S = p := by
  simp [getPosition, getDA, lookupA_upsertA_self]

theorem getPosition_update_ne (m : List (String × Position)) (S sym : String)
    (p d : Position) (h : sym ≠ S) :
    getPosition (upsertA (setdefaultA m S d) S p) sym = getPosition m sym := by
  simp [getPosition, getDA, lookupA_upsertA_ne _ _ _ _ h,
    lookupA_setdefaultA_ne _ _ _ _ h]

theorem exclusive_buyStep (st : EngineState) (t : TradeRow)
    (hex : Exclusive st.positions) : Exclusive (buyStep st t).positions := by
  intro sym
  unfold buyStep
  simp only
  by_cases hs : sym = normSym t.symbol
  · rw [hs, getPosition_update_self]
    by_cases h0 : 0 < (drain_shorts (normSym t.symbol) t.id t.price t.trade_time
        (_fee_per_share t.quantity t.fees) t.quantity
        (getPosition st.positions (normSym t.symbol)).short).2.1
    · right
      exact drain_shorts_rem_pos_empty _ _ _ _ _ _ _ h0
    · rcases hex (normSym t.symbol) with hl | hsh
      · left
        dsimp only
        rw [if_neg h0, hl]
      · right
        dsimp only
        rw [hsh]
        simp [drain_shorts]
  · rw [getPosition_update_ne _ _ _ _ _ hs]
    exact hex sym

theorem exclusive_sellStep (st : EngineState) (t : TradeRow)
    (hex : Exclusive st.positions) : Exclusive (sellStep st t).positions := by
  intro sym
  unfold sellStep
  simp only
  by_cases hs : sym = normSym t.symbol
  · rw [hs, getPosition_update_self]
    by_cases h0 : 0 < (drain_longs (normSym t.symbol) t.id t.price t.trade_time
        (_fee_per_share t.quantity t.fees) t.quantity
        (getPosition st.positions (normSym t.symbol)).long).2.1
    · left
      exact drain_longs_rem_pos_empty _ _ _ _ _ _ _ h0
    · rcases hex (normSym t.symbol) with hl | hsh
      · left
        dsimp only
        rw [hl]
        simp [drain_longs]
      · right
        dsimp only
        rw [if_neg h0, hsh]
  · rw [getPosition_update_ne _ _ _ _ _ hs]
    exact hex sym

theorem exclusive_processTrade (st : EngineState) (t : TradeRow)
    (hex : Exclusive st.positions) : Exclusive (processTrade st t).positions := by
  cases h : t.side
  · rw [processTrade_buy st t h]; exact exclusive_buyStep st t hex
  · rw [processTrade_sell st t h]; exact exclusive_sellStep st t hex

theorem exclusive_foldl (l : List TradeRow) (st : EngineState)
    (hex : Exclusive st.positions) :
    Exclusive ((l.foldl processTrade st).positions) := by
  induction l generalizing st with
  | nil => exact hex
  | cons t rest ih =>
      rw [List.foldl_cons]
      exact ih _ (exclusive_processTrade st t hex)

/-- C3: After processing any prefix of the time-sorted trades, no
symbol's long-lot queue and short-lot queue are simultaneously non-empty (a
BUY fully drains the short queue before opening a long lot and a SELL fully
drains the long queue before opening a short lot); in particular the whole
run `compute_fifo` ends in such a state. -/
theorem fifo_long_short_exclusive (trades : List TradeRow) :
    (∀ (n : ℕ) (sym : String),
        (getPosition (runPrefix trades n).positions sym).long = [] ∨
        (getPosition (runPrefix trades n).positions sym).short = [])
    ∧ (compute_fifo trades).2.1
        = (runPrefix trades (sortTrades trades).length).positions := by
  constructor
  · intro n sym
    exact exclusive_foldl _ _
      (fun s => by simp [getPosition, getDA, lookupA]) sym
  · simp [compute_fifo, runPrefix, List.take_length]

/-! ## Lot and match positivity (claim C10 infrastructure) -/

theorem getPosition_mem_or (positions : List (String × Position)) (sym : String) :
    getPosition positions sym = { long := [], short := [] } ∨
    (sym, getPosition positions sym) ∈ positions := by
  unfold getPosition getDA
  cases h : lookupA positions sym with
  | none => left; rfl
  | some p =>
      right
      simpa using lookupA_mem _ _ _ h

theorem mem_update {α : Type} (m : List (String × α)) (S : String) (p d : α)
    (sp : String × α) (h : sp ∈ upsertA (setdefaultA m S d) S p) :
    sp.2 = p ∨ sp.2 = d ∨ sp ∈ m := by
  rcases mem_upsertA _ _ _ _ h with h1 | h2
  · exact Or.inl h1
  · rcases mem_setdefaultA _ _ _ _ h2 with h3 | h4
    · exact Or.inr (Or.inl h3)
    · exact Or.inr (Or.inr h4)

theorem c10_buyStep (st : EngineState) (t : TradeRow) (rest : List TradeRow)
    (hle : ∀ u ∈ rest, t.trade_time ≤ u.trade_time)
    (hm : ∀ m ∈ st.realized, 1 ≤ m.qty ∧ m.entry_time ≤ m.exit_time)
    (hlots : ∀ sp ∈ st.positions, ∀ lo ∈ sp.2.long ++ sp.2.short,
      1 ≤ lo.qty ∧ lo.time ≤ t.trade_time ∧ ∀ u ∈ rest, lo.time ≤ u.trade_time) :
    (∀ m ∈ (buyStep st t).realized, 1 ≤ m.qty ∧ m.entry_time ≤ m.exit_time)
    ∧ (∀ sp ∈ (buyStep st t).positions, ∀ lo ∈ sp.2.long ++ sp.2.short,
        1 ≤ lo.qty ∧ ∀ u ∈ rest, lo.time ≤ u.trade_time) := by
  have hpos : ∀ lo ∈ (getPosition st.positions (normSym t.symbol)).long ++
      (getPosition st.positions (normSym t.symbol)).short,
      1 ≤ lo.qty ∧ lo.time ≤ t.trade_time ∧ ∀ u ∈ rest, lo.time ≤ u.trade_time := by
    rcases getPosition_mem_or st.positions (normSym t.symbol) with he | hmem
    · rw [he]; simp
    · exact hlots _ hmem
  have hposS : ∀ lo ∈ (getPosition st.positions (normSym t.symbol)).short, 1 ≤ lo.qty :=
    fun lo h => (hpos lo (List.mem_append_right _ h)).1
  unfold buyStep
  simp only
  constructor
  · intro m hmm
    rcases List.mem_append.1 hmm with h1 | h2
    · exact hm m h1
    · refine ⟨drain_shorts_matches_qty_pos _ _ _ _ _ _ _ hposS m h2, ?_⟩
      obtain ⟨_, _, _, hexit, _, l0, hl0, _, _, hentry, _⟩ :=
        drain_shorts_matches_src (normSym t.symbol) t.id t.price t.trade_time
          (_fee_per_share t.quantity t.fees)
          (getPosition st.positions (normSym t.symbol)).short t.quantity m h2
      rw [hentry, hexit]
      exact (hpos l0 (List.mem_append_right _ hl0)).2.1
  · intro sp hsp lo hlo
    rcases mem_update _ _ _ _ _ hsp with h1 | h2 | h3
    · rw [h1] at hlo
      dsimp only at hlo
      rcases List.mem_append.1 hlo with hl1 | hl2
      · by_cases h0 : 0 < (drain_shorts (normSym t.symbol) t.id t.price t.trade_time
            (_fee_per_share t.quantity t.fees) t.quantity
            (getPosition st.positions (normSym t.symbol)).short).2.1
        · rw [if_pos h0] at hl1
          rcases List.mem_append.1 hl1 with ha | hb
          · have := hpos lo (List.mem_append_left _ ha)
            exact ⟨this.1, this.2.2⟩
          · rcases List.mem_singleton.1 hb with hb'
            rw [hb']
            dsimp only
            exact ⟨by omega, fun u hu => hle u hu⟩
        · rw [if_neg h0] at hl1
          have := hpos lo (List.mem_append_left _ hl1)
          exact ⟨this.1, this.2.2⟩
      · refine ⟨drain_shorts_lots_pos _ _ _ _ _ _ _ hposS lo hl2, ?_⟩
        obtain ⟨l0, hl0, htime⟩ :=
          drain_shorts_lots_src (normSym t.symbol) t.id t.price t.trade_time
            (_fee_per_share t.quantity t.fees)
            (getPosition st.positions (normSym t.symbol)).short t.quantity lo hl2
        rw [htime]
        exact (hpos l0 (List.mem_append_right _ hl0)).2.2
    · rw [h2] at hlo
      simp at hlo
    · have := hlots sp h3 lo hlo
      exact ⟨this.1, this.2.2⟩

theorem c10_sellStep (st : EngineState) (t : TradeRow) (rest : List TradeRow)
    (hle : ∀ u ∈ rest, t.trade_time ≤ u.trade_time)
    (hm : ∀ m ∈ st.realized, 1 ≤ m.qty ∧ m.entry_time ≤ m.exit_time)
    (hlots : ∀ sp ∈ st.positions, ∀ lo ∈ sp.2.long ++ sp.2.short,
      1 ≤ lo.qty ∧ lo.time ≤ t.trade_time ∧ ∀ u ∈ rest, lo.time ≤ u.trade_time) :
    (∀ m ∈ (sellStep st t).realized, 1 ≤ m.qty ∧ m.entry_time ≤ m.exit_time)
    ∧ (∀ sp ∈ (sellStep st t).positions, ∀ lo ∈ sp.2.long ++ sp.2.short,
        1 ≤ lo.qty ∧ ∀ u ∈ rest, lo.time ≤ u.trade_time) := by
  have hpos : ∀ lo ∈ (getPosition st.positions (normSym t.symbol)).long ++
      (getPosition st.positions (normSym t.symbol)).short,
      1 ≤ lo.qty ∧ lo.time ≤ t.trade_time ∧ ∀ u ∈ rest, lo.time ≤ u.trade_time := by
    rcases getPosition_mem_or st.positions (normSym t.symbol) with he | hmem
    · rw [he]; simp
    · exact hlots _ hmem
  have hposL : ∀ lo ∈ (getPosition st.positions (normSym t.symbol)).long, 1 ≤ lo.qty :=
    fun lo h => (hpos lo (List.mem_append_left _ h)).1
  unfold sellStep
  simp only
  constructor
  · intro m hmm
    rcases List.mem_append.1 hmm with h1 | h2
    · exact hm m h1
    · refine ⟨drain_longs_matches_qty_pos _ _ _ _ _ _ _ hposL m h2, ?_⟩
      obtain ⟨_, _, _, hexit, _, l0, hl0, _, _, hentry, _⟩ :=
        drain_longs_matches_src (normSym t.symbol) t.id t.price t.trade_time
          (_fee_per_share t.quantity t.fees)
          (getPosition st.positions (normSym t.symbol)).long t.quantity m h2
      rw [hentry, hexit]
      exact (hpos l0 (List.mem_append_left _ hl0)).2.1
  · intro sp hsp lo hlo
    rcases mem_update _ _ _ _ _ hsp with h1 | h2 | h3
    · rw [h1] at hlo
      dsimp only at hlo
      rcases List.mem_append.1 hlo with hl1 | hl2
      · refine ⟨drain_longs_lots_pos _ _ _ _ _ _ _ hposL lo hl1, ?_⟩
        obtain ⟨l0, hl0, htime⟩ :=
          drain_longs_lots_src (normSym t.symbol) t.id t.price t.trade_time
            (_fee_per_share t.quantity t.fees)
            (getPosition st.positions (normSym t.symbol)).long t.quantity lo hl1
        rw [htime]
        exact (hpos l0 (List.mem_append_left _ hl0)).2.2
      · by_cases h0 : 0 < (drain_longs (normSym t.symbol) t.id t.price t.trade_time
            (_fee_per_share t.quantity t.fees) t.quantity
            (getPosition st.positions (normSym t.symbol)).long).2.1
        · rw [if_pos h0] at hl2
          rcases List.mem_append.1 hl2 with ha | hb
          · have := hpos lo (List.mem_append_right _ ha)
            exact ⟨this.1, this.2.2⟩
          · rcases List.mem_singleton.1 hb with hb'
            rw [hb']
            dsimp only
            exact ⟨by omega, fun u hu => hle u hu⟩
        · rw [if_neg h0] at hl2
          have := hpos lo (List.mem_append_right _ hl2)
          exact ⟨this.1, this.2.2⟩
    · rw [h2] at hlo
      simp at hlo
    · have := hlots sp h3 lo hlo
      exact ⟨this.1, this.2.2⟩

theorem c10_foldl (l : List TradeRow) (st : EngineState)
    (hq : ∀ t ∈ l, 0 < t.quantity)
    (hsorted : List.Pairwise (fun a b => a.trade_time ≤ b.trade_time) l)
    (hm : ∀ m ∈ st.realized, 1 ≤ m.qty ∧ m.entry_time ≤ m.exit_time)
    (hlots : ∀ sp ∈ st.positions, ∀ lo ∈ sp.2.long ++ sp.2.short,
      1 ≤ lo.qty ∧ ∀ u ∈ l, lo.time ≤ u.trade_time) :
    (∀ m ∈ (l.foldl processTrade st).realized, 1 ≤ m.qty ∧ m.entry_time ≤ m.exit_time)
    ∧ (∀ sp ∈ (l.foldl processTrade st).positions,
        ∀ lo ∈ sp.2.long ++ sp.2.short, 1 ≤ lo.qty) := by
  induction l generalizing st with
  | nil =>
      exact ⟨hm, fun sp hsp lo hlo => (hlots sp hsp lo hlo).1⟩
  | cons t rest ih =>
      rw [List.foldl_cons]
      obtain ⟨hle, hrest⟩ := List.pairwise_cons.1 hsorted
      have hlots' : ∀ sp ∈ st.positions, ∀ lo ∈ sp.2.long ++ sp.2.short,
          1 ≤ lo.qty ∧ lo.time ≤ t.trade_time ∧ ∀ u ∈ rest, lo.time ≤ u.trade_time := by
        intro sp hsp lo hlo
        obtain ⟨h1, h2⟩ := hlots sp hsp lo hlo
        exact ⟨h1, h2 t (List.mem_cons_self _ _),
          fun u hu => h2 u (List.mem_cons_of_mem _ hu)⟩
      have hstep : (∀ m ∈ (processTrade st t).realized, 1 ≤ m.qty ∧ m.entry_time ≤ m.exit_time)
          ∧ (∀ sp ∈ (processTrade st t).positions, ∀ lo ∈ sp.2.long ++ sp.2.short,
              1 ≤ lo.qty ∧ ∀ u ∈ rest, lo.time ≤ u.trade_time) := by
        cases h : t.side
        · rw [processTrade_buy st t h]
          exact c10_buyStep st t rest hle hm hlots'
        · rw [processTrade_sell st t h]
          exact c10_sellStep st t rest hle hm hlots'
      exact ih _ (fun u hu => hq u (List.mem_cons_of_mem _ hu)) hrest hstep.1 hstep.2

/-- C10: When all trade quantities are positive, every realized match has
quantity at least one and a non-decreasing entry/exit time pair, and every
lot left in any long or short queue has quantity at least one. -/
theorem fifo_match_lot_positivity (trades : List TradeRow)
    (h : ∀ t ∈ trades, 0 < t.quantity) :
    (∀ m ∈ (compute_fifo trades).1, 1 ≤ m.qty ∧ m.entry_time ≤ m.exit_time)
    ∧ (∀ sp ∈ (compute_fifo trades).2.1,
        ∀ lo ∈ sp.2.long ++ sp.2.short, 1 ≤ lo.qty) := by
  have hq : ∀ t ∈ sortTrades trades, 0 < t.quantity := fun t ht =>
    h t ((sortTrades_perm trades).mem_iff.1 ht)
  exact c10_foldl (sortTrades trades) { realized := [], positions := [], mark := [] }
    hq (sortTrades_sorted trades) (by simp) (by simp)

/-- Concrete instance of `fifo_match_lot_positivity` on a two-trade
round-trip. -/
theorem fifo_match_lot_positivity_witness :
    (∀ t ∈ [({ id := "t1", user_id := "u", symbol := "X", side := Side.BUY,
               quantity := 2, price := 1, trade_time := 0, fees := 0 } : TradeRow),
            ({ id := "t2", user_id := "u", symbol := "X", side := Side.SELL,
               quantity := 1, price := 2, trade_time := 1, fees := 0 } : TradeRow)],
        0 < t.quantity)
    ∧ ((∀ m ∈ (compute_fifo
          [({ id := "t1", user_id := "u", symbol := "X", side := Side.BUY,
              quantity := 2, price := 1, trade_time := 0, fees := 0 } : TradeRow),
           ({ id := "t2", user_id := "u", symbol := "X", side := Side.SELL,
              quantity := 1, price := 2, trade_time := 1, fees := 0 } : TradeRow)]).1,
          1 ≤ m.qty ∧ m.entry_time ≤ m.exit_time)
      ∧ (∀ sp ∈ (compute_fifo
          [({ id := "t1", user_id := "u", symbol := "X", side := Side.BUY,
              quantity := 2, price := 1, trade_time := 0, fees := 0 } : TradeRow),
           ({ id := "t2", user_id := "u", symbol := "X", side := Side.SELL,
              quantity := 1, price := 2, trade_time := 1, fees := 0 } : TradeRow)]).2.1,
          ∀ lo ∈ sp.2.long ++ sp.2.short, 1 ≤ lo.qty)) :=
  ⟨by decide, fifo_match_lot_positivity _ (by decide)⟩

-- Sanity checks for the calendar model (1970-01-01 is day 0).
example : yearOfDay 0 = 1970 := by decide
example : yearOfDay 364 = 1970 := by decide
example : yearOfDay 365 = 1971 := by decide
example : yearOfDay (-1) = 1969 := by decide
example : yearOfDay 19722 = 2023 := by decide
example : yearOfDay 19723 = 2024 := by decide

/-- C2: FIFO ordering on the spec's three-trade example: BUY 10@100,
BUY 5@110, SELL 12@120 yield exactly the two matches (10 units entry `t1`,
then 2 units entry `t2`, both exiting `t3` at 120), a remaining long lot of
3 units at 110, mark 120, and total realized PnL 220. -/
theorem fifo_ordering_example :
    compute_fifo
      [ { id := "t1", user_id := "u", symbol := "X", side := Side.BUY,
          quantity := 10, price := 100, trade_time := 1, fees := 0 },
        { id := "t2", user_id := "u", symbol := "X", side := Side.BUY,
          quantity := 5, price := 110, trade_time := 2, fees := 0 },
        { id := "t3", user_id := "u", symbol := "X", side := Side.SELL,
          quantity := 12, price := 120, trade_time := 3, fees := 0 } ] =
    ( [ { symbol := "X", qty := 10, entry_trade_id := "t1", exit_trade_id := "t3",
          entry_price := 100, exit_price := 120, entry_time := 1, exit_time := 3,
          side_closed := SideClosed.LONG, pnl := 200 },
        { symbol := "X", qty := 2, entry_trade_id := "t2", exit_trade_id := "t3",
          entry_price := 110, exit_price := 120, entry_time := 2, exit_time := 3,
          side_closed := SideClosed.LONG, pnl := 20 } ],
      [ ("X", { long := [{ qty := 3, trade_id := "t2", price := 110,
                           fee_per_share := 0, time := 2 }], short := [] }) ],
      [ ("X", 120) ] )
    ∧ ((compute_fifo
      [ { id := "t1", user_id := "u", symbol := "X", side := Side.BUY,
          quantity := 10, price := 100, trade_time := 1, fees := 0 },
        { id := "t2", user_id := "u", symbol := "X", side := Side.BUY,
          quantity := 5, price := 110, trade_time := 2, fees := 0 },
        { id := "t3", user_id := "u", symbol := "X", side := Side.SELL,
          quantity := 12, price := 120, trade_time := 3, fees := 0 } ]).1.map
        (·.pnl)).sum = 220 := by
  have h :
      compute_fifo
        [ { id := "t1", user_id := "u", symbol := "X", side := Side.BUY,
            quantity := 10, price := 100, trade_time := 1, fees := 0 },
          { id := "t2", user_id := "u", symbol := "X", side := Side.BUY,
            quantity := 5, price := 110, trade_time := 2, fees := 0 },
          { id := "t3", user_id := "u", symbol := "X", side := Side.SELL,
            quantity := 12, price := 120, trade_time := 3, fees := 0 } ] =
      ( [ { symbol := "X", qty := 10, entry_trade_id := "t1", exit_trade_id := "t3",
            entry_price := 100, exit_price := 120, entry_time := 1, exit_time := 3,
            side_closed := SideClosed.LONG, pnl := 200 },
          { symbol := "X", qty := 2, entry_trade_id := "t2", exit_trade_id := "t3",
            entry_price := 110, exit_price := 120, entry_time := 2, exit_time := 3,
            side_closed := SideClosed.LONG, pnl := 20 } ],
        [ ("X", { long := [{ qty := 3, trade_id := "t2", price := 110,
                             fee_per_share := 0, time := 2 }], short := [] }) ],
        [ ("X", 120) ] ) := by
    norm_num [compute_fifo, sortTrades, List.insertionSort, List.orderedInsert,
      processTrade, drain_shorts, drain_longs, _fee_per_share, setdefaultA,
      upsertA, lookupA, getDA, show normSym "X" = "X" from by decide]
  refine ⟨h, ?_⟩
  rw [h]
  norm_num

/-- C4: Direction reversal within one trade: BUY 5@100 then SELL 8@110
realizes one LONG match of 5 units with PnL 50 and leaves a short lot of 3
units at 110. -/
theorem fifo_reversal_example :
    compute_fifo
      [ { id := "t1", user_id := "u", symbol := "Y", side := Side.BUY,
          quantity := 5, price := 100, trade_time := 1, fees := 0 },
        { id := "t2", user_id := "u", symbol := "Y", side := Side.SELL,
          quantity := 8, price := 110, trade_time := 2, fees := 0 } ] =
    ( [ { symbol := "Y", qty := 5, entry_trade_id := "t1", exit_trade_id := "t2",
          entry_price := 100, exit_price := 110, entry_time := 1, exit_time := 2,
          side_closed := SideClosed.LONG, pnl := 50 } ],
      [ ("Y", { long := [],
                short := [{ qty := 3, trade_id := "t2", price := 110,
                            fee_per_share := 0, time := 2 }] }) ],
      [ ("Y", 110) ] ) := by
  norm_num [compute_fifo, sortTrades, List.insertionSort, List.orderedInsert,
    processTrade, drain_shorts, drain_longs, _fee_per_share, setdefaultA,
    upsertA, lookupA, getDA, show normSym "Y" = "Y" from by decide]

/-- C5: Fee distribution: a trade's total fee is spread evenly over its
quantity (`fees / quantity`, 0 for non-positive quantity); every match
emitted while draining subtracts the entry lot's and the exit trade's
per-share fees times the matched quantity from its gross PnL; and the spec's
example (BUY 10@100 fees 10, SELL 10@120 fees 20) realizes a single match
with PnL 170. -/
theorem fee_distribution :
    (∀ (q : ℤ) (f : ℚ), _fee_per_share q f = if q ≤ 0 then 0 else f / (q : ℚ))
    ∧ (∀ (sym tid : String) (price : ℚ) (ttime : ℤ) (fps : ℚ) (r : ℤ)
        (lots : List Lot), ∀ rm ∈ (drain_longs sym tid price ttime fps r lots).1,
        ∃ l ∈ lots, rm.pnl = (price - l.price) * (rm.qty : ℚ) -
          (l.fee_per_share + fps) * (rm.qty : ℚ))
    ∧ (∀ (sym tid : String) (price : ℚ) (ttime : ℤ) (fps : ℚ) (r : ℤ)
        (lots : List Lot), ∀ rm ∈ (drain_shorts sym tid price ttime fps r lots).1,
        ∃ l ∈ lots, rm.pnl = (l.price - price) * (rm.qty : ℚ) -
          (l.fee_per_share + fps) * (rm.qty : ℚ))
    ∧ _fee_per_share 10 10 = 1 ∧ _fee_per_share 10 20 = 2
    ∧ compute_fifo
        [ { id := "t1", user_id := "u", symbol := "F", side := Side.BUY,
            quantity := 10, price := 100, trade_time := 1, fees := 10 },
          { id := "t2", user_id := "u", symbol := "F", side := Side.SELL,
            quantity := 10, price := 120, trade_time := 2, fees := 20 } ] =
      ( [ { symbol := "F", qty := 10, entry_trade_id := "t1", exit_trade_id := "t2",
            entry_price := 100, exit_price := 120, entry_time := 1, exit_time := 2,
            side_closed := SideClosed.LONG, pnl := 170 } ],
        [ ("F", { long := [], short := [] }) ],
        [ ("F", 120) ] ) := by
  refine ⟨fun q f => rfl, ?_, ?_, by norm_num [_fee_per_share], by norm_num [_fee_per_share], ?_⟩
  · intro sym tid price ttime fps r lots rm hrm
    obtain ⟨_, _, _, _, _, l, hl, _, _, _, hp⟩ :=
      drain_longs_matches_src sym tid price ttime fps lots r rm hrm
    exact ⟨l, hl, hp⟩
  · intro sym tid price ttime fps r lots rm hrm
    obtain ⟨_, _, _, _, _, l, hl, _, _, _, hp⟩ :=
      drain_shorts_matches_src sym tid price ttime fps lots r rm hrm
    exact ⟨l, hl, hp⟩
  · norm_num [compute_fifo, sortTrades, List.insertionSort, List.orderedInsert,
      processTrade, drain_shorts, drain_longs, _fee_per_share, setdefaultA,
      upsertA, lookupA, getDA, show normSym "F" = "F" from by decide]

/-- Concrete instance of the quantified parts of `fee_distribution`: closing
a 10-unit lot carrying 1/share entry fee with a 2/share exit fee yields
PnL 170 on the long side and 70 on the short side. -/
theorem fee_distribution_witness :
    ({ symbol := "X", qty := 10, entry_trade_id := "t1", exit_trade_id := "t2",
       entry_price := 100, exit_price := 120, entry_time := 0, exit_time := 1,
       side_closed := SideClosed.LONG, pnl := 170 } : RealizedMatch) ∈
      (drain_longs "X" "t2" 120 1 2 10
        [{ qty := 10, trade_id := "t1", price := 100, fee_per_share := 1, time := 0 }]).1
    ∧ (∃ l ∈ [({ qty := 10, trade_id := "t1", price := 100, fee_per_share := 1,
                 time := 0 } : Lot)],
        (170 : ℚ) = (120 - l.price) * ((10 : ℤ) : ℚ) -
          (l.fee_per_share + 2) * ((10 : ℤ) : ℚ))
    ∧ ({ symbol := "X", qty := 10, entry_trade_id := "t1", exit_trade_id := "t2",
         entry_price := 100, exit_price := 90, entry_time := 0, exit_time := 1,
         side_closed := SideClosed.SHORT, pnl := 70 } : RealizedMatch) ∈
      (drain_shorts "X" "t2" 90 1 2 10
        [{ qty := 10, trade_id := "t1", price := 100, fee_per_share := 1, time := 0 }]).1
    ∧ (∃ l ∈ [({ qty := 10, trade_id := "t1", price := 100, fee_per_share := 1,
                 time := 0 } : Lot)],
        (70 : ℚ) = (l.price - 90) * ((10 : ℤ) : ℚ) -
          (l.fee_per_share + 2) * ((10 : ℤ) : ℚ)) := by
  refine ⟨?_, ?_, ?_, ?_⟩
  · norm_num [drain_longs]
  · refine Exists.imp (fun l h => ⟨h.1, ?_⟩)
      (fee_distribution.2.1 "X" "t2" 120 1 2 10
        [{ qty := 10, trade_id := "t1", price := 100, fee_per_share := 1, time := 0 }]
        ({ symbol := "X", qty := 10, entry_trade_id := "t1", exit_trade_id := "t2",
           entry_price := 100, exit_price := 120, entry_time := 0, exit_time := 1,
           side_closed := SideClosed.LONG, pnl := 170 } : RealizedMatch)
        (by norm_num [drain_longs]))
    rw [← h.2]
  · norm_num [drain_shorts]
  · refine Exists.imp (fun l h => ⟨h.1, ?_⟩)
      (fee_distribution.2.2.1 "X" "t2" 90 1 2 10
        [{ qty := 10, trade_id := "t1", price := 100, fee_per_share := 1, time := 0 }]
        ({ symbol := "X", qty := 10, entry_trade_id := "t1", exit_trade_id := "t2",
           entry_price := 100, exit_price := 90, entry_time := 0, exit_time := 1,
           side_closed := SideClosed.SHORT, pnl := 70 } : RealizedMatch)
        (by norm_num [drain_shorts]))
    rw [← h.2]

/-! ## Tax classification lemmas (claim C9 infrastructure) -/

theorem tax_stg_mem_iff (ms : List RealizedMatch) (y ltd : ℤ) (str ltr : ℚ)
    (md : TaxMatchData) :
    md ∈ (calculate_tax_classification ms y ltd str ltr).short_term_gains ↔
      ∃ m ∈ ms, yearOfTs m.exit_time = y ∧ 0 < m.pnl ∧ ¬ ltd ≤ holdingDays m ∧
        md = tax_match_data m := by
  simp only [calculate_tax_classification, List.mem_map, List.mem_filter,
    decide_eq_true_eq]
  constructor
  · rintro ⟨m, ⟨⟨hm, hy⟩, hp, hlt⟩, hmd⟩
    exact ⟨m, hm, hy, hp, hlt, hmd.symm⟩
  · rintro ⟨m, hm, hy, hp, hlt, hmd⟩
    exact ⟨m, ⟨⟨hm, hy⟩, hp, hlt⟩, hmd.symm⟩

theorem tax_stl_mem_iff (ms : List RealizedMatch) (y ltd : ℤ) (str ltr : ℚ)
    (md : TaxMatchData) :
    md ∈ (calculate_tax_classification ms y ltd str ltr).short_term_losses ↔
      ∃ m ∈ ms, yearOfTs m.exit_time = y ∧ m.pnl < 0 ∧ ¬ ltd ≤ holdingDays m ∧
        md = tax_match_data m := by
  simp only [calculate_tax_classification, List.mem_map, List.mem_filter,
    decide_eq_true_eq]
  constructor
  · rintro ⟨m, ⟨⟨hm, hy⟩, hp, hlt⟩, hmd⟩
    exact ⟨m, hm, hy, hp, hlt, hmd.symm⟩
  · rintro ⟨m, hm, hy, hp, hlt, hmd⟩
    exact ⟨m, ⟨⟨hm, hy⟩, hp, hlt⟩, hmd.symm⟩

theorem tax_ltg_mem_iff (ms : List RealizedMatch) (y ltd : ℤ) (str ltr : ℚ)
    (md : TaxMatchData) :
    md ∈ (calculate_tax_classification ms y ltd str ltr).long_term_gains ↔
      ∃ m ∈ ms, yearOfTs m.exit_time = y ∧ 0 < m.pnl ∧ ltd ≤ holdingDays m ∧
        md = tax_match_data m := by
  simp only [calculate_tax_classification, List.mem_map, List.mem_filter,
    decide_eq_true_eq]
  constructor
  · rintro ⟨m, ⟨⟨hm, hy⟩, hp, hlt⟩, hmd⟩
    exact ⟨m, hm, hy, hp, hlt, hmd.symm⟩
  · rintro ⟨m, hm, hy, hp, hlt, hmd⟩
    exact ⟨m, ⟨⟨hm, hy⟩, hp, hlt⟩, hmd.symm⟩

theorem tax_ltl_mem_iff (ms : List RealizedMatch) (y ltd : ℤ) (str ltr : ℚ)
    (md : TaxMatchData) :
    md ∈ (calculate_tax_classification ms y ltd str ltr).long_term_losses ↔
      ∃ m ∈ ms, yearOfTs m.exit_time = y ∧ m.pnl < 0 ∧ ltd ≤ holdingDays m ∧
        md = tax_match_data m := by
  simp only [calculate_tax_classification, List.mem_map, List.mem_filter,
    decide_eq_true_eq]
  constructor
  · rintro ⟨m, ⟨⟨hm, hy⟩, hp, hlt⟩, hmd⟩
    exact ⟨m, hm, hy, hp, hlt, hmd.symm⟩
  · rintro ⟨m, hm, hy, hp, hlt, hmd⟩
    exact ⟨m, ⟨⟨hm, hy⟩, hp, hlt⟩, hmd.symm⟩

/-- C9: Tax classification: only matches exiting in the target year are
bucketed; a match is long-term exactly when its holding period in whole days
reaches the threshold (with the default 365-day threshold a 365-day holding
is long-term and a 364-day one short-term); zero-PnL matches appear in no
bucket; and each bucket's taxable amount is the non-negative part of its
net. -/
theorem tax_classification_correct :
    (∀ (ms : List RealizedMatch) (y ltd : ℤ) (str ltr : ℚ) (md : TaxMatchData),
        (md ∈ (calculate_tax_classification ms y ltd str ltr).short_term_gains ↔
          ∃ m ∈ ms, yearOfTs m.exit_time = y ∧ 0 < m.pnl ∧ ¬ ltd ≤ holdingDays m ∧
            md = tax_match_data m)
        ∧ (md ∈ (calculate_tax_classification ms y ltd str ltr).short_term_losses ↔
          ∃ m ∈ ms, yearOfTs m.exit_time = y ∧ m.pnl < 0 ∧ ¬ ltd ≤ holdingDays m ∧
            md = tax_match_data m)
        ∧ (md ∈ (calculate_tax_classification ms y ltd str ltr).long_term_gains ↔
          ∃ m ∈ ms, yearOfTs m.exit_time = y ∧ 0 < m.pnl ∧ ltd ≤ holdingDays m ∧
            md = tax_match_data m)
        ∧ (md ∈ (calculate_tax_classification ms y ltd str ltr).long_term_losses ↔
          ∃ m ∈ ms, yearOfTs m.exit_time = y ∧ m.pnl < 0 ∧ ltd ≤ holdingDays m ∧
            md = tax_match_data m))
    ∧ (∀ (ms : List RealizedMatch) (y ltd : ℤ) (str ltr : ℚ) (md : TaxMatchData),
        (md ∈ (calculate_tax_classification ms y ltd str ltr).short_term_gains ∨
         md ∈ (calculate_tax_classification ms y ltd str ltr).short_term_losses ∨
         md ∈ (calculate_tax_classification ms y ltd str ltr).long_term_gains ∨
         md ∈ (calculate_tax_classification ms y ltd str ltr).long_term_losses) →
        md.pnl ≠ 0)
    ∧ (∀ (ms : List RealizedMatch) (y ltd : ℤ) (str ltr : ℚ),
        (calculate_tax_classification ms y ltd str ltr).short_term_taxable_gain
          = max 0 (calculate_tax_classification ms y ltd str ltr).net_short_term
        ∧ (calculate_tax_classification ms y ltd str ltr).long_term_taxable_gain
          = max 0 (calculate_tax_classification ms y ltd str ltr).net_long_term)
    ∧ (calculate_tax_classification
        [ { symbol := "X", qty := 1, entry_trade_id := "a", exit_trade_id := "b",
            entry_price := 1, exit_price := 2, entry_time := 0,
            exit_time := 31536000, side_closed := SideClosed.LONG, pnl := 5 } ]
        1971).long_term_gains
      = [ tax_match_data
          { symbol := "X", qty := 1, entry_trade_id := "a", exit_trade_id := "b",
            entry_price := 1, exit_price := 2, entry_time := 0,
            exit_time := 31536000, side_closed := SideClosed.LONG, pnl := 5 } ]
    ∧ (calculate_tax_classification
        [ { symbol := "X", qty := 1, entry_trade_id := "a", exit_trade_id := "b",
            entry_price := 1, exit_price := 2, entry_time := 0,
            exit_time := 31536000, side_closed := SideClosed.LONG, pnl := 5 } ]
        1971).short_term_gains = []
    ∧ (calculate_tax_classification
        [ { symbol := "X", qty := 1, entry_trade_id := "a", exit_trade_id := "b",
            entry_price := 1, exit_price := 2, entry_time := 0,
            exit_time := 31449600, side_closed := SideClosed.LONG, pnl := 5 } ]
        1970).short_term_gains
      = [ tax_match_data
          { symbol := "X", qty := 1, entry_trade_id := "a", exit_trade_id := "b",
            entry_price := 1, exit_price := 2, entry_time := 0,
            exit_time := 31449600, side_closed := SideClosed.LONG, pnl := 5 } ]
    ∧ (calculate_tax_classification
        [ { symbol := "X", qty := 1, entry_trade_id := "a", exit_trade_id := "b",
            entry_price := 1, exit_price := 2, entry_time := 0,
            exit_time := 31449600, side_closed := SideClosed.LONG, pnl := 5 } ]
        1970).long_term_gains = [] := by
  refine ⟨?_, ?_, ?_, ?_, ?_, ?_, ?_⟩
  · intro ms y ltd str ltr md
    exact ⟨tax_stg_mem_iff ms y ltd str ltr md, tax_stl_mem_iff ms y ltd str ltr md,
      tax_ltg_mem_iff ms y ltd str ltr md, tax_ltl_mem_iff ms y ltd str ltr md⟩
  · intro ms y ltd str ltr md hmem
    rcases hmem with h | h | h | h
    · obtain ⟨m, _, _, hp, _, hmd⟩ := (tax_stg_mem_iff ms y ltd str ltr md).1 h
      rw [hmd]
      exact ne_of_gt hp
    · obtain ⟨m, _, _, hp, _, hmd⟩ := (tax_stl_mem_iff ms y ltd str ltr md).1 h
      rw [hmd]
      exact ne_of_lt hp
    · obtain ⟨m, _, _, hp, _, hmd⟩ := (tax_ltg_mem_iff ms y ltd str ltr md).1 h
      rw [hmd]
      exact ne_of_gt hp
    · obtain ⟨m, _, _, hp, _, hmd⟩ := (tax_ltl_mem_iff ms y ltd str ltr md).1 h
      rw [hmd]
      exact ne_of_lt hp
  · intro ms y ltd str ltr
    exact ⟨rfl, rfl⟩
  · norm_num [calculate_tax_classification,
      show yearOfTs 31536000 = 1971 from by decide,
      show holdingDays
        { symbol := "X", qty := 1, entry_trade_id := "a", exit_trade_id := "b",
          entry_price := 1, exit_price := 2, entry_time := 0,
          exit_time := 31536000, side_closed := SideClosed.LONG, pnl := 5 } = 365
        from by decide]
  · norm_num [calculate_tax_classification,
      show yearOfTs 31536000 = 1971 from by decide,
      show holdingDays
        { symbol := "X", qty := 1, entry_trade_id := "a", exit_trade_id := "b",
          entry_price := 1, exit_price := 2, entry_time := 0,
          exit_time := 31536000, side_closed := SideClosed.LONG, pnl := 5 } = 365
        from by decide]
  · norm_num [calculate_tax_classification,
      show yearOfTs 31449600 = 1970 from by decide,
      show holdingDays
        { symbol := "X", qty := 1, entry_trade_id := "a", exit_trade_id := "b",
          entry_price := 1, exit_price := 2, entry_time := 0,
          exit_time := 31449600, side_closed := SideClosed.LONG, pnl := 5 } = 364
        from by decide]
  · norm_num [calculate_tax_classification,
      show yearOfTs 31449600 = 1970 from by decide,
      show holdingDays
        { symbol := "X", qty := 1, entry_trade_id := "a", exit_trade_id := "b",
          entry_price := 1, exit_price := 2, entry_time := 0,
          exit_time := 31449600, side_closed := SideClosed.LONG, pnl := 5 } = 364
        from by decide]

/-- Concrete instance of the quantified parts of `tax_classification_correct`:
the 365-day long-term gain example has nonzero PnL and the taxable amounts
are the positive parts of the nets. -/
theorem tax_classification_correct_witness :
    ((tax_match_data
        { symbol := "X", qty := 1, entry_trade_id := "a", exit_trade_id := "b",
          entry_price := 1, exit_price := 2, entry_time := 0,
          exit_time := 31536000, side_closed := SideClosed.LONG, pnl := 5 } ∈
      (calculate_tax_classification
        [ { symbol := "X", qty := 1, entry_trade_id := "a", exit_trade_id := "b",
            entry_price := 1, exit_price := 2, entry_time := 0,
            exit_time := 31536000, side_closed := SideClosed.LONG, pnl := 5 } ]
        1971).long_term_gains)
    ∧ (tax_match_data
        { symbol := "X", qty := 1, entry_trade_id := "a", exit_trade_id := "b",
          entry_price := 1, exit_price := 2, entry_time := 0,
          exit_time := 31536000, side_closed := SideClosed.LONG, pnl := 5 }).pnl ≠ 0)
    ∧ ((calculate_tax_classification ([] : List RealizedMatch) 1971 365 15
          10).short_term_taxable_gain
        = max 0 (calculate_tax_classification ([] : List RealizedMatch) 1971 365 15
          10).net_short_term) := by
  have hmem := tax_classification_correct.2.2.2.1
  refine ⟨⟨?_, ?_⟩, (tax_classification_correct.2.2.1 [] 1971 365 15 10).1⟩
  · rw [hmem]
    exact List.mem_singleton_self _
  · exact tax_classification_correct.2.1 _ 1971 365 15 10 _
      (Or.inr (Or.inr (Or.inl (by rw [hmem]; exact List.mem_singleton_self _))))

/-! ## Strict-mode overview (claim C6) -/

/-- C6: `overview_from_trades` fails only on its strict-mode check: with
`strict = false` it always succeeds, and with `strict = true` it fails
exactly when some symbol with a nonzero open position lacks a caller-supplied
mark, reporting every missing symbol in the error. On the spec's scenario —
one open long position in `Z` and marks supplied only for another symbol —
the strict call fails naming `Z` while the non-strict call succeeds, valuing
`Z`'s open position at its last trade price 100. -/
theorem overview_strict_mode :
    (∀ (trades : List TradeRow) (marks : List (String × ℚ)),
        overview_from_trades trades marks false =
          Except.ok (overview_core trades marks))
    ∧ (∀ (trades : List TradeRow) (marks : List (String × ℚ)),
        (overview_core trades marks).missing_marks ≠ [] →
        overview_from_trades trades marks true =
          Except.error ("Missing marks for open symbols: " ++
            String.intercalate ", " (overview_core trades marks).missing_marks))
    ∧ (∀ (trades : List TradeRow) (marks : List (String × ℚ)),
        (overview_core trades marks).missing_marks = [] →
        overview_from_trades trades marks true =
          Except.ok (overview_core trades marks))
    ∧ (overview_core
        [ { id := "t1", user_id := "u", symbol := "Z", side := Side.BUY,
            quantity := 5, price := 100, trade_time := 0, fees := 0 } ]
        [("A", 1)]).missing_marks = ["Z"]
    ∧ overview_from_trades
        [ { id := "t1", user_id := "u", symbol := "Z", side := Side.BUY,
            quantity := 5, price := 100, trade_time := 0, fees := 0 } ]
        [("A", 1)] true = Except.error "Missing marks for open symbols: Z"
    ∧ overview_from_trades
        [ { id := "t1", user_id := "u", symbol := "Z", side := Side.BUY,
            quantity := 5, price := 100, trade_time := 0, fees := 0 } ]
        [("A", 1)] false =
        Except.ok (overview_core
          [ { id := "t1", user_id := "u", symbol := "Z", side := Side.BUY,
              quantity := 5, price := 100, trade_time := 0, fees := 0 } ]
          [("A", 1)])
    ∧ (overview_core
        [ { id := "t1", user_id := "u", symbol := "Z", side := Side.BUY,
            quantity := 5, price := 100, trade_time := 0, fees := 0 } ]
        [("A", 1)]).open_positions =
      [ { symbol := "Z", side := "LONG", quantity := 5, avg_cost := 100,
          mark_price := 100, unrealized_pnl := 0 } ] := by
  have g1 : ∀ (trades : List TradeRow) (marks : List (String × ℚ)),
      overview_from_trades trades marks false =
        Except.ok (overview_core trades marks) := by
    intro trades marks
    unfold overview_from_trades
    simp
  have g2 : ∀ (trades : List TradeRow) (marks : List (String × ℚ)),
      (overview_core trades marks).missing_marks ≠ [] →
      overview_from_trades trades marks true =
        Except.error ("Missing marks for open symbols: " ++
          String.intercalate ", " (overview_core trades marks).missing_marks) := by
    intro trades marks h
    unfold overview_from_trades
    rw [if_pos ⟨rfl, h⟩]
  have g3 : ∀ (trades : List TradeRow) (marks : List (String × ℚ)),
      (overview_core trades marks).missing_marks = [] →
      overview_from_trades trades marks true =
        Except.ok (overview_core trades marks) := by
    intro trades marks h
    unfold overview_from_trades
    rw [if_neg (by simp [h])]
  have c4 : (overview_core
      [ { id := "t1", user_id := "u", symbol := "Z", side := Side.BUY,
          quantity := 5, price := 100, trade_time := 0, fees := 0 } ]
      [("A", 1)]).missing_marks = ["Z"] := by
    norm_num [overview_core, compute_fifo, sortTrades, List.insertionSort,
      List.orderedInsert, processTrade, drain_shorts, drain_longs,
      _fee_per_share, setdefaultA, upsertA, lookupA, getDA, _normalize_marks,
      open_positions_summary, compute_unrealized, sortedStrings, charsLt,
      List.dedup, show normSym "Z" = "Z" from by decide,
      show normSym "A" = "A" from by decide]
  have c7 : (overview_core
      [ { id := "t1", user_id := "u", symbol := "Z", side := Side.BUY,
          quantity := 5, price := 100, trade_time := 0, fees := 0 } ]
      [("A", 1)]).open_positions =
      [ { symbol := "Z", side := "LONG", quantity := 5, avg_cost := 100,
          mark_price := 100, unrealized_pnl := 0 } ] := by
    norm_num [overview_core, compute_fifo, sortTrades, List.insertionSort,
      List.orderedInsert, processTrade, drain_shorts, drain_longs,
      _fee_per_share, setdefaultA, upsertA, lookupA, getDA, _normalize_marks,
      open_positions_summary, compute_unrealized, sortedStrings, charsLt,
      List.dedup, show normSym "Z" = "Z" from by decide,
      show normSym "A" = "A" from by decide]
  refine ⟨g1, g2, g3, c4, ?_, g1 _ _, c7⟩
  rw [g2 _ _ (by rw [c4]; simp), c4]
  rfl

/-- Concrete instance of the hypothesis-bearing parts of
`overview_strict_mode` at the one-open-symbol scenario. -/
theorem overview_strict_mode_witness :
    ((overview_core
        [ { id := "t1", user_id := "u", symbol := "Z", side := Side.BUY,
            quantity := 5, price := 100, trade_time := 0, fees := 0 } ]
        [("A", 1)]).missing_marks ≠ [])
    ∧ overview_from_trades
        [ { id := "t1", user_id := "u", symbol := "Z", side := Side.BUY,
            quantity := 5, price := 100, trade_time := 0, fees := 0 } ]
        [("A", 1)] true =
        Except.error ("Missing marks for open symbols: " ++
          String.intercalate ", "
            (overview_core
              [ { id := "t1", user_id := "u", symbol := "Z", side := Side.BUY,
                  quantity := 5, price := 100, trade_time := 0, fees := 0 } ]
              [("A", 1)]).missing_marks) :=
  ⟨by rw [overview_strict_mode.2.2.2.1]; simp,
    overview_strict_mode.2.1 _ _
      (by rw [overview_strict_mode.2.2.2.1]; simp)⟩

/-- C7: The matching engine is deterministic and carries no state between
runs: it is a pure function of the trade list (its accumulator is created
afresh inside `compute_fifo`), so two runs on equal trade lists return equal
realized matches, equal open-lot maps, and equal mark maps. -/
theorem fifo_deterministic_idempotent (trades₁ trades₂ : List TradeRow)
    (h : trades₁ = trades₂) :
    compute_fifo trades₁ = compute_fifo trades₂ := by
  rw [h]

/-- Concrete instance of `fifo_deterministic_idempotent`: two runs on the
same one-trade list agree. -/
theorem fifo_deterministic_idempotent_witness :
    compute_fifo
      [ { id := "t1", user_id := "u", symbol := "X", side := Side.BUY,
          quantity := 1, price := 1, trade_time := 0, fees := 0 } ] =
    compute_fifo
      [ { id := "t1", user_id := "u", symbol := "X", side := Side.BUY,
          quantity := 1, price := 1, trade_time := 0, fees := 0 } ] :=
  fifo_deterministic_idempotent _ _ rfl

/-- C8: Null-safety of the metric functions: `sharpe_ratio` of an empty
or single-element list is `none` (more generally of any list with fewer than
two points, and of a constant list, whose sample standard deviation is zero),
and `profit_factor 100 0` is `none` (`profit_factor` is `some` exactly when
the gross loss is strictly negative); none of these raises or produces a
non-numeric value. -/
theorem metrics_null_safety :
    sharpe_ratio' [] 0 = none
    ∧ sharpe_ratio' [5] 0 = none
    ∧ (∀ (rs : List ℚ) (rf : ℚ), rs.length < 2 → sharpe_ratio' rs rf = none)
    ∧ sharpe_ratio' [5, 5] 0 = none
    ∧ profit_factor 100 0 = none
    ∧ (∀ gp gl : ℚ, (profit_factor gp gl).isSome = true ↔ gl < 0) := by
  refine ⟨?_, ?_, ?_, ?_, ?_, ?_⟩
  · simp [sharpe_ratio']
  · simp [sharpe_ratio']
  · intro rs rf hlen
    unfold sharpe_ratio'
    rw [if_pos (Or.inr hlen)]
  · unfold sharpe_ratio'
    rw [if_neg (by simp)]
    norm_num [Real.sqrt_zero]
  · simp [profit_factor]
  · intro gp gl
    unfold profit_factor
    by_cases h0 : gl = 0
    · simp [h0]
    · by_cases hneg : gl < 0
      · simp [h0, hneg]
      · simp [h0, hneg]

/-- Concrete instance of the quantified parts of `metrics_null_safety`. -/
theorem metrics_null_safety_witness :
    (([(3 : ℚ)] : List ℚ).length < 2 ∧ sharpe_ratio' [(3 : ℚ)] (1 : ℚ) = none)
    ∧ ((profit_factor 100 (-50)).isSome = true ↔ (-50 : ℚ) < 0) :=
  ⟨⟨by norm_num, metrics_null_safety.2.2.1 [(3 : ℚ)] 1 (by norm_num)⟩,
    metrics_null_safety.2.2.2.2.2 100 (-50)⟩

end Portox
